import Mathlib

/-!
Verification of the Ada_Web_Analyzer compiler front-end (lexical analyzer and
recursive-descent parser) against its specification.

The development shallowly embeds `src/Modules/Definitions.py`,
`src/Modules/LexicalAnalyzer.py` and `src/Modules/RDParser.py`:

* strings are `List Char`; the scanner works on the remaining suffix of the
  source, which corresponds to the Python cursor `pos` (the suffix is
  `source[pos:]`);
* each compiled regular expression of `Definitions.token_patterns` becomes an
  anchored matcher `List Char → Option Nat` returning the length of the match
  at the start of the remainder, reproducing Python's leftmost
  greedy-with-backtracking semantics for that particular pattern;
* character classes are modelled over the characters Python's `str` patterns
  recognise; for `\s` the full Unicode whitespace set of Python's `re` module
  is spelled out, while `\w` and `\d` are modelled by their ASCII members,
  which are the only ones reachable in the contexts below (the word-boundary
  alternatives of ADDOP/MULOP are only consulted on ASCII letters, where the
  earlier ID pattern has already matched);
* `int(...)` and `float(...)` are modelled on the digit-only lexemes the NUM
  and REAL patterns can produce (no signs, underscores or whitespace can occur
  in a `\d+` or `\d+\.\d+` match); the numeric value of a REAL is kept as its
  two digit strings, since no observable behaviour depends on the float value;
* `raise Exception(msg)` becomes the `Except.error` constructor carrying a
  structured rendering of `msg`; error-list entries are likewise structured
  values carrying exactly the data interpolated into the Python message;
* loops become fuel-indexed structural recursions: the scanner wrappers pass
  `length + 1` fuel, enough because every iteration of the Python loops
  consumes at least one character, and the parser statements quantify over
  all fuel values, covering every recursion depth of the Python methods;
* logging calls are omitted: the logger is write-only and never affects
  control flow.
-/

set_option maxHeartbeats 1000000
set_option maxRecDepth 10000

/-- Token kinds, mirroring the dynamically built `Enum` in
`Definitions.__init__` (`Definitions.py` lines 39-65). -/
inductive TokenType where
  | PROCEDURE | MODULE | CONSTANT | IS | BEGIN | END
  | IF | THEN | ELSE | ELSIF | WHILE | LOOP | FLOAT
  | INTEGER | CHAR | GET | PUT | ID | NUM | REAL
  | LITERAL | CHAR_LITERAL | RELOP | ADDOP | MULOP | ASSIGN
  | LPAREN | RPAREN | COMMA | COLON | SEMICOLON
  | DOT | EOF | CONCAT | IN | OUT | INOUT
  | ABORT | ABS | ABSTRACT | ACCEPT | ACCESS
  | ALIASED | ALL | AND | ARRAY | AT
  | BODY | CASE | DECLARE | DELAY | DELTA
  | DIGITS | DO | ENTRY | EXCEPTION | EXIT
  | FOR | FUNCTION | GENERIC | GOTO
  | INTERFACE | LIMITED | MOD | NEW | NOT
  | NULL | OF | OR | OTHERS | OVERRIDING
  | PACKAGE | PARALLEL | PRAGMA | PRIVATE
  | PROTECTED | RAISE | RANGE | RECORD | REM
  | RENAMES | REQUEUE | RETURN | REVERSE | SELECT
  | SEPARATE | SOME | SUBTYPE | SYNCHRONIZED
  | TAGGED | TASK | TERMINATE | TYPE | UNTIL
  | USE | WHEN | WITH | XOR
  | INTEGERT | REALT | CHART | CONST
  deriving DecidableEq

/-- Decoded numeric payload of a token: the integer value produced by
`int(lexeme)` for NUM, or the two digit strings of a REAL lexeme (the float
value itself carries no observable behaviour in the program). -/
inductive TokenValue where
  | intVal (n : Int)
  | realVal (whole frac : List Char)
  deriving DecidableEq

/-- Token record, mirroring `Token.__init__` (`Token.py` lines 25-47).
Line and column are `Int` because `RDParser.advance` fabricates a token with
position (-1, -1). -/
structure Token where
  token_type : TokenType
  lexeme : List Char
  line_number : Int
  column_number : Int
  value : Option TokenValue
  literal_value : Option (List Char)
  deriving DecidableEq

/-- Scanner error records; each constructor carries exactly the data
interpolated into the corresponding Python error message. -/
inductive LexErr where
  | unrecognizedChar (c : Char) (line col : Nat)
  | unterminatedString (line col : Nat)
  | identifierTooLong (lexeme : List Char) (line col : Nat)
  | invalidNumber (lexeme : List Char) (line col : Nat)
  | invalidReal (lexeme : List Char) (line col : Nat)
  | unterminatedCharLiteral (line col : Nat)
  deriving DecidableEq

/-- Mapping of reserved words, mirroring `Definitions.reserved_words`
(`Definitions.py` lines 68-153).  Note `INTEGER`, `REAL`, `CHAR` map to the
internal kinds `INTEGERT`, `REALT`, `CHART`. -/
def reserved_words : List (String × TokenType) :=
  [("BEGIN", .BEGIN), ("MODULE", .MODULE), ("CONSTANT", .CONSTANT),
   ("PROCEDURE", .PROCEDURE), ("IS", .IS), ("IF", .IF), ("THEN", .THEN),
   ("ELSE", .ELSE), ("ELSIF", .ELSIF), ("WHILE", .WHILE), ("LOOP", .LOOP),
   ("FLOAT", .FLOAT), ("INTEGER", .INTEGERT), ("REAL", .REALT),
   ("CHAR", .CHART), ("GET", .GET), ("PUT", .PUT), ("END", .END),
   ("IN", .IN), ("OUT", .OUT), ("INOUT", .INOUT),
   ("ABORT", .ABORT), ("ABS", .ABS), ("ABSTRACT", .ABSTRACT),
   ("ACCEPT", .ACCEPT), ("ACCESS", .ACCESS), ("ALIASED", .ALIASED),
   ("ALL", .ALL), ("AND", .AND), ("ARRAY", .ARRAY), ("AT", .AT),
   ("BODY", .BODY), ("CASE", .CASE), ("DECLARE", .DECLARE),
   ("DELAY", .DELAY), ("DELTA", .DELTA), ("DIGITS", .DIGITS), ("DO", .DO),
   ("ENTRY", .ENTRY), ("EXCEPTION", .EXCEPTION), ("EXIT", .EXIT),
   ("FOR", .FOR), ("FUNCTION", .FUNCTION), ("GENERIC", .GENERIC),
   ("GOTO", .GOTO), ("INTERFACE", .INTERFACE), ("LIMITED", .LIMITED),
   ("MOD", .MOD), ("NEW", .NEW), ("NOT", .NOT), ("NULL", .NULL),
   ("OF", .OF), ("OR", .OR), ("OTHERS", .OTHERS),
   ("OVERRIDING", .OVERRIDING), ("PACKAGE", .PACKAGE),
   ("PARALLEL", .PARALLEL), ("PRAGMA", .PRAGMA), ("PRIVATE", .PRIVATE),
   ("PROTECTED", .PROTECTED), ("RAISE", .RAISE), ("RANGE", .RANGE),
   ("RECORD", .RECORD), ("REM", .REM), ("RENAMES", .RENAMES),
   ("REQUEUE", .REQUEUE), ("RETURN", .RETURN), ("REVERSE", .REVERSE),
   ("SELECT", .SELECT), ("SEPARATE", .SEPARATE), ("SOME", .SOME),
   ("SUBTYPE", .SUBTYPE), ("SYNCHRONIZED", .SYNCHRONIZED),
   ("TAGGED", .TAGGED), ("TASK", .TASK), ("TERMINATE", .TERMINATE),
   ("TYPE", .TYPE), ("UNTIL", .UNTIL), ("USE", .USE), ("WHEN", .WHEN),
   ("WITH", .WITH), ("XOR", .XOR)]

/-- Python `str.upper()` on the ASCII range (all reserved words are ASCII). -/
def upperList (w : List Char) : List Char := w.map Char.toUpper

/-- Embeds `Definitions.get_reserved_token` (`Definitions.py` lines 250-265):
dictionary lookup of the upper-cased word. -/
def get_reserved_token (w : List Char) : Option TokenType :=
  (reserved_words.find? (fun p => p.1.toList == upperList w)).map (·.2)

/-- Embeds `Definitions.is_reserved` (`Definitions.py` lines 234-248). -/
def is_reserved (w : List Char) : Bool :=
  (get_reserved_token w).isSome

/-- Members of Python's `\s` class for `str` patterns (the `re` module's
Unicode whitespace set). -/
def pyIsSpace (c : Char) : Bool :=
  c = ' ' || c = '\t' || c = '\n' || c = '\r' || c = '\u000b' || c = '\u000c' ||
  c = '\u001c' || c = '\u001d' || c = '\u001e' || c = '\u001f' || c = '\u0085' ||
  c = '\u00a0' || c = '\u1680' || ('\u2000' ≤ c && c ≤ '\u200a') ||
  c = '\u2028' || c = '\u2029' || c = '\u202f' || c = '\u205f' || c = '\u3000'

/-- Character class of the live WHITESPACE pattern `[ \t\r\s\n]`
(`Definitions.py` line 164): space, tab, carriage return, `\s`, newline. -/
def wsClass (c : Char) : Bool :=
  c = ' ' || c = '\t' || c = '\r' || pyIsSpace c || c = '\n'

/-- The class `[a-zA-Z]` heading the ID pattern. -/
def isAsciiLetter (c : Char) : Bool :=
  ('a' ≤ c && c ≤ 'z') || ('A' ≤ c && c ≤ 'Z')

/-- The class `[a-zA-Z0-9_]` continuing the ID pattern. -/
def isIdChar (c : Char) : Bool :=
  isAsciiLetter c || c.isDigit || c = '_'

/-- Python's `\w` class, restricted to its ASCII members (see the header
note: the word-boundary alternatives that consult it are only reachable on
ASCII letters). -/
def pyIsWord (c : Char) : Bool :=
  isAsciiLetter c || c.isDigit || c = '_'

/-- Length of the maximal prefix satisfying `p`; the anchored greedy star of
a single-character class. -/
def countWhile (p : Char → Bool) : List Char → Nat
  | [] => 0
  | c :: rest => if p c then countWhile p rest + 1 else 0

/-- Index of the first occurrence of `c`, as Python's `str.find` restricted
to the remainder (absent occurrence is `none` rather than -1). -/
def charIndex (c : Char) : List Char → Option Nat
  | [] => none
  | d :: rest =>
    if d = c then some 0 else (charIndex c rest).map (· + 1)

/-- Characters after the last newline; `len(lexeme.split("\n")[-1])` is the
length of this list. -/
def lastLineLen (l : List Char) : Nat :=
  countWhile (fun c => !(c = '\n')) l.reverse

/-- Line update shared by every cursor advance:
`line += lexeme.count("\n")`. -/
def advLine (line : Nat) (lex : List Char) : Nat :=
  line + lex.countP (fun c => c = '\n')

/-- Column update shared by every cursor advance: the length of the last
line of the lexeme plus one if it contains a newline, else `column + len`. -/
def advCol (col : Nat) (lex : List Char) : Nat :=
  if lex.contains '\n' then lastLineLen lex + 1 else col + lex.length

/-- Anchored matcher for `COMMENT`, the regex `--.*` (`Definitions.py`
line 161): two hyphens then everything up to (excluding) the newline. -/
def matchCOMMENT : List Char → Option Nat
  | '-' :: '-' :: rest => some (2 + countWhile (fun c => !(c = '\n')) rest)
  | _ => none

/-- Anchored matcher for `WHITESPACE`, the regex `[ \t\r\s\n]+`
(`Definitions.py` line 164). -/
def matchWHITESPACE (rem : List Char) : Option Nat :=
  let k := countWhile wsClass rem
  if k = 0 then none else some k

/-- Anchored matcher for `CONCAT`, the regex `\&`. -/
def matchCONCAT : List Char → Option Nat
  | '&' :: _ => some 1
  | _ => none

/-- Greedy scan with backtracking for the starred group of the LITERAL
regex.  `k` counts the characters consumed so far (opening quote included);
`best` remembers the end position of the most recent doubled-quote item,
whose first quote the engine can fall back to as the closing quote when the
tail `(?:"|$)` fails at an interior newline. -/
def litGo : List Char → Nat → Option Nat → Option Nat
  | [], k, _ => some k
  | '\n' :: rest, k, best => if rest = [] then some k else best
  | '"' :: '"' :: rest, k, _ => litGo rest (k + 2) (some (k + 1))
  | '"' :: _, k, _ => some (k + 1)
  | _ :: rest, k, best => litGo rest (k + 1) best

/-- Anchored matcher for `LITERAL`, the regex `"(?:[^"\n]|"")*(?:"|$)`
(`Definitions.py` line 178), with Python's backtracking semantics: the star
consumes non-quote non-newline characters and doubled quotes greedily; the
tail accepts a closing quote, the end of input, or the position before a
final newline; on failure the engine gives items back, and only a doubled
quote can then satisfy the tail, at its first quote. -/
def matchLITERAL : List Char → Option Nat
  | '"' :: rest => litGo rest 1 none
  | _ => none

/-- Anchored matcher for `CHAR_LITERAL`, the regex `'(?:[^'\n]|'')(?:'|$)`
(`Definitions.py` line 185): a quote, exactly one item (a non-quote
non-newline character, or a doubled quote), then a quote, the end of input,
or the position before a final newline. -/
def matchCHAR_LITERAL : List Char → Option Nat
  | '\'' :: '\'' :: '\'' :: '\'' :: _ => some 4
  | ['\'', '\'', '\''] => some 3
  | ['\'', '\'', '\'', '\n'] => some 3
  | '\'' :: '\'' :: '\'' :: _ => none
  | '\'' :: '\'' :: _ => none
  | '\'' :: '\n' :: _ => none
  | ['\'', _] => some 2
  | '\'' :: _ :: '\'' :: _ => some 3
  | ['\'', _, '\n'] => some 2
  | _ => none

/-- Anchored matcher for `REAL`, the regex `\d+\.\d+`. -/
def matchREAL (rem : List Char) : Option Nat :=
  let d1 := countWhile Char.isDigit rem
  if d1 = 0 then none
  else
    match rem.drop d1 with
    | '.' :: rest2 =>
      let d2 := countWhile Char.isDigit rest2
      if d2 = 0 then none else some (d1 + 1 + d2)
    | _ => none

/-- Anchored matcher for `NUM`, the regex `\d+`. -/
def matchNUM (rem : List Char) : Option Nat :=
  let k := countWhile Char.isDigit rem
  if k = 0 then none else some k

/-- Anchored matcher for `ID`, the regex `[a-zA-Z][a-zA-Z0-9_]*`. -/
def matchID : List Char → Option Nat
  | c :: rest => if isAsciiLetter c then some (1 + countWhile isIdChar rest) else none
  | [] => none

/-- Anchored matcher for `ASSIGN`, the regex `:=`. -/
def matchASSIGN : List Char → Option Nat
  | ':' :: '=' :: _ => some 2
  | _ => none

/-- Anchored matcher for `RELOP`, the regex `<=|>=|/=|=|<|>` with its
left-to-right alternation order. -/
def matchRELOP : List Char → Option Nat
  | '<' :: '=' :: _ => some 2
  | '>' :: '=' :: _ => some 2
  | '/' :: '=' :: _ => some 2
  | '=' :: _ => some 1
  | '<' :: _ => some 1
  | '>' :: _ => some 1
  | _ => none

/-- Word boundary `\b` on the left of a match: the scanner supplies the
character preceding the current position (none at the start of the source). -/
def boundaryBefore (prev : Option Char) : Bool :=
  match prev with
  | none => true
  | some c => !pyIsWord c

/-- Word boundary `\b` on the right of a word: the next character is absent
or a non-word character. -/
def boundaryAfter (rest : List Char) : Bool :=
  match rest with
  | [] => true
  | c :: _ => !pyIsWord c

/-- Anchored matcher for `ADDOP`, the regex `\+|-|\bor\b`. -/
def matchADDOP (prev : Option Char) : List Char → Option Nat
  | '+' :: _ => some 1
  | '-' :: _ => some 1
  | 'o' :: 'r' :: rest =>
    if boundaryBefore prev && boundaryAfter rest then some 2 else none
  | _ => none

/-- Anchored matcher for `MULOP`, the regex `\*|/|\brem\b|\bmod\b|\band\b`. -/
def matchMULOP (prev : Option Char) : List Char → Option Nat
  | '*' :: _ => some 1
  | '/' :: _ => some 1
  | 'r' :: 'e' :: 'm' :: rest =>
    if boundaryBefore prev && boundaryAfter rest then some 3 else none
  | 'm' :: 'o' :: 'd' :: rest =>
    if boundaryBefore prev && boundaryAfter rest then some 3 else none
  | 'a' :: 'n' :: 'd' :: rest =>
    if boundaryBefore prev && boundaryAfter rest then some 3 else none
  | _ => none

/-- Anchored matcher for a single given character (LPAREN, RPAREN, COMMA,
COLON, SEMICOLON, DOT). -/
def matchChar (c : Char) : List Char → Option Nat
  | d :: _ => if d = c then some 1 else none
  | _ => none

/-- Models Python `int(lexeme)` on the lexemes the NUM pattern `\d+` can
produce: a nonempty all-digit string parses to its decimal value, anything
else raises `ValueError` (none).  Signs, underscores and surrounding
whitespace, which `int` would also accept, cannot occur in a `\d+` match. -/
def pyIntParse (l : List Char) : Option Int :=
  if !l.isEmpty && l.all Char.isDigit then
    some (Int.ofNat (l.foldl (fun acc c => acc * 10 + (c.toNat - 48)) 0))
  else none

/-- Models Python `float(lexeme)` on the lexemes the REAL pattern
`\d+\.\d+` can produce: digits, a dot, digits parse to the pair of digit
strings (the float value itself is never observed); anything else raises
`ValueError` (none).  Exponent and sign forms, which `float` would also
accept, cannot occur in a `\d+\.\d+` match. -/
def pyFloatParse (l : List Char) : Option TokenValue :=
  let d1 := countWhile Char.isDigit l
  if d1 = 0 then none
  else
    match l.drop d1 with
    | '.' :: rest =>
      let d2 := countWhile Char.isDigit rest
      if d2 = 0 || !(rest.length = d2) then none
      else some (.realVal (l.take d1) rest)
    | _ => none

/-- Embeds `_process_identifier` (`LexicalAnalyzer.py` lines 285-313):
reserved words fold to their reserved kind; non-reserved lexemes longer
than 17 characters record an error and signal a skip (`none`); otherwise
the kind is ID. -/
def processIdentifier (lexeme : List Char) (line col : Nat) :
    List LexErr × Option TokenType :=
  if is_reserved lexeme then
    ([], get_reserved_token lexeme)
  else if lexeme.length > 17 then
    ([.identifierTooLong lexeme line col], none)
  else
    ([], some .ID)

/-- Embeds `_process_num` (`LexicalAnalyzer.py` lines 315-338): on parse
failure the error is recorded and, with `stop_on_error`, raised. -/
def processNum (stop : Bool) (lexeme : List Char) (line col : Nat) :
    Except LexErr (List LexErr × TokenType × Option TokenValue) :=
  match pyIntParse lexeme with
  | some v => .ok ([], .NUM, some (.intVal v))
  | none =>
    if stop then .error (.invalidNumber lexeme line col)
    else .ok ([.invalidNumber lexeme line col], .NUM, none)

/-- Embeds `_process_real` (`LexicalAnalyzer.py` lines 340-363). -/
def processReal (stop : Bool) (lexeme : List Char) (line col : Nat) :
    Except LexErr (List LexErr × TokenType × Option TokenValue) :=
  match pyFloatParse lexeme with
  | some v => .ok ([], .REAL, some v)
  | none =>
    if stop then .error (.invalidReal lexeme line col)
    else .ok ([.invalidReal lexeme line col], .REAL, none)

/-- Python `lexeme[1:-1]`. -/
def pySliceInner (l : List Char) : List Char := (l.drop 1).dropLast

/-- Python `s.replace('""', '"')`: left-to-right non-overlapping
replacement of doubled double quotes by a single one. -/
def pyReplaceQQ : List Char → List Char
  | '"' :: '"' :: rest => '"' :: pyReplaceQQ rest
  | c :: rest => c :: pyReplaceQQ rest
  | [] => []

/-- Python `s.replace("''", "'")`: left-to-right non-overlapping
replacement of doubled single quotes by a single one. -/
def pyReplaceSS : List Char → List Char
  | '\'' :: '\'' :: rest => '\'' :: pyReplaceSS rest
  | c :: rest => c :: pyReplaceSS rest
  | [] => []

/-- Embeds `_process_literal` (`LexicalAnalyzer.py` lines 365-397): a
lexeme not ending in a double quote records an unterminated-string error
(raised with `stop_on_error`) and signals a skip (`none`); otherwise the
quotes are stripped and doubled quotes collapsed. -/
def processLiteral (stop : Bool) (lexeme : List Char) (line col : Nat) :
    Except LexErr (List LexErr × Option (TokenType × List Char)) :=
  if !(lexeme.getLast? == some '"') then
    if stop then .error (.unterminatedString line col)
    else .ok ([.unterminatedString line col], none)
  else
    .ok ([], some (.LITERAL, pyReplaceQQ (pySliceInner lexeme)))

/-- Embeds `_process_char_literal` (`LexicalAnalyzer.py` lines 399-428): a
lexeme not ending in a single quote records an unterminated-character
error (raised with `stop_on_error`) and keeps `lexeme[1:]` as the value;
otherwise the quotes are stripped and doubled quotes collapsed. -/
def processCharLiteral (stop : Bool) (lexeme : List Char) (line col : Nat) :
    Except LexErr (List LexErr × TokenType × List Char) :=
  if !(lexeme.getLast? == some '\'') then
    if stop then .error (.unterminatedCharLiteral line col)
    else .ok ([.unterminatedCharLiteral line col], .CHAR_LITERAL, lexeme.drop 1)
  else
    .ok ([], .CHAR_LITERAL, pyReplaceSS (pySliceInner lexeme))

/-- Result of one `_match_token` call: no pattern matched, a skipped
region (with consumed length and updated position), or a token. -/
inductive MTRes where
  | noMatch
  | skipRes (consumed newLine newCol : Nat)
  | tokRes (t : Token) (consumed newLine newCol : Nat)
  deriving DecidableEq

/-- Token constructor used by the scanner (line and column are natural
there; the record stores them as integers). -/
def mkToken (tt : TokenType) (lex : List Char) (line col : Nat)
    (v : Option TokenValue) (lv : Option (List Char)) : Token :=
  { token_type := tt, lexeme := lex, line_number := Int.ofNat line,
    column_number := Int.ofNat col, value := v, literal_value := lv }

/-- The EOF token appended by `analyze` (`LexicalAnalyzer.py`
lines 116-121). -/
def mkEOF (line col : Nat) : Token :=
  mkToken .EOF (("EOF").toList) line col none none

/-- Embeds the unterminated-string lookahead of `_match_token`
(`LexicalAnalyzer.py` lines 204-223): with the cursor on a double quote,
if no closing quote precedes the next newline (or the end of input when no
newline follows), the scanner skips to that newline (or to the end),
recording the consumed length and the updated line and column. -/
def litGuard (rem : List Char) (line col : Nat) : Option (Nat × Nat × Nat) :=
  match rem with
  | c :: rest =>
    if c = '"' then
      match charIndex '"' rest, charIndex '\n' (c :: rest) with
      | none, none => some ((c :: rest).length, line, col + (c :: rest).length)
      | none, some j => some (j, line + 1, 1)
      | some _, none => none
      | some i, some j => if 1 + i > j then some (j, line + 1, 1) else none
    else none
  | [] => none

/-- The tail of the pattern table after ID: ASSIGN, RELOP, ADDOP, MULOP
and the single-character punctuation, all emitted verbatim through the
`getattr(self.defs.TokenType, token_name)` route of `_match_token`. -/
def simpleTail (prev : Option Char) (rem : List Char) : Option (TokenType × Nat) :=
  if let some k := matchASSIGN rem then some (.ASSIGN, k)
  else if let some k := matchRELOP rem then some (.RELOP, k)
  else if let some k := matchADDOP prev rem then some (.ADDOP, k)
  else if let some k := matchMULOP prev rem then some (.MULOP, k)
  else if let some k := matchChar '(' rem then some (.LPAREN, k)
  else if let some k := matchChar ')' rem then some (.RPAREN, k)
  else if let some k := matchChar ',' rem then some (.COMMA, k)
  else if let some k := matchChar ':' rem then some (.COLON, k)
  else if let some k := matchChar ';' rem then some (.SEMICOLON, k)
  else if let some k := matchChar '.' rem then some (.DOT, k)
  else none

/-- Embeds `_match_token` (`LexicalAnalyzer.py` lines 179-281): the
patterns are tried in the insertion order of `token_patterns` with
WHITESPACE and COMMENT skipped, that is CONCAT, LITERAL (preceded by the
unterminated lookahead), CHAR_LITERAL, REAL, NUM, ID, ASSIGN, RELOP,
ADDOP, MULOP, LPAREN, RPAREN, COMMA, COLON, SEMICOLON, DOT; the first
match wins and is routed to its processor. -/
def matchToken (stop : Bool) (prev : Option Char) (rem : List Char)
    (line col : Nat) : Except LexErr (List LexErr × MTRes) :=
  if let some k := matchCONCAT rem then
    let lex := rem.take k
    .ok ([], .tokRes (mkToken .CONCAT lex line col none none) k
      (advLine line lex) (advCol col lex))
  else
    match litGuard rem line col with
    | some (k, nl, nc) =>
      .ok ([.unterminatedString line col], .skipRes k nl nc)
    | none =>
      if let some k := matchLITERAL rem then
        let lex := rem.take k
        match processLiteral stop lex line col with
        | .error e => .error e
        | .ok (errs, none) =>
          .ok (errs, .skipRes k (advLine line lex) (advCol col lex))
        | .ok (errs, some (tt, lv)) =>
          .ok (errs, .tokRes (mkToken tt lex line col none (some lv)) k
            (advLine line lex) (advCol col lex))
      else if let some k := matchCHAR_LITERAL rem then
        let lex := rem.take k
        match processCharLiteral stop lex line col with
        | .error e => .error e
        | .ok (errs, tt, lv) =>
          .ok (errs, .tokRes (mkToken tt lex line col none (some lv)) k
            (advLine line lex) (advCol col lex))
      else if let some k := matchREAL rem then
        let lex := rem.take k
        match processReal stop lex line col with
        | .error e => .error e
        | .ok (errs, tt, v) =>
          .ok (errs, .tokRes (mkToken tt lex line col v none) k
            (advLine line lex) (advCol col lex))
      else if let some k := matchNUM rem then
        let lex := rem.take k
        match processNum stop lex line col with
        | .error e => .error e
        | .ok (errs, tt, v) =>
          .ok (errs, .tokRes (mkToken tt lex line col v none) k
            (advLine line lex) (advCol col lex))
      else if let some k := matchID rem then
        let lex := rem.take k
        match processIdentifier lex line col with
        | (errs, none) =>
          .ok (errs, .skipRes k (advLine line lex) (advCol col lex))
        | (errs, some tt) =>
          .ok (errs, .tokRes (mkToken tt lex line col none none) k
            (advLine line lex) (advCol col lex))
      else
        match simpleTail prev rem with
        | some (tt, k) =>
          let lex := rem.take k
          .ok ([], .tokRes (mkToken tt lex line col none none) k
            (advLine line lex) (advCol col lex))
        | none => .ok ([], .noMatch)

/-- Last character of a consumed slice, used to maintain the character
preceding the cursor (`source[pos-1]`) for the word boundaries of ADDOP
and MULOP. -/
def lastOr (l : List Char) (p : Option Char) : Option Char :=
  match l.getLast? with
  | some c => some c
  | none => p

/-- Embeds `_skip_whitespace` (`LexicalAnalyzer.py` lines 126-151).  The
greedy `+` of the pattern makes one application maximal, so the fixpoint
loop wrapped around it in `analyze` stabilises after a single
application. -/
def skipWhitespace (rem : List Char) (line col : Nat) (prev : Option Char) :
    List Char × Nat × Nat × Option Char :=
  match matchWHITESPACE rem with
  | some k =>
    let ws := rem.take k
    (rem.drop k, advLine line ws, advCol col ws, lastOr ws prev)
  | none => (rem, line, col, prev)

/-- Embeds the comment loop of `analyze` (`LexicalAnalyzer.py` lines
80-90) together with `_skip_comment` (lines 153-177): while a comment
matches, consume it and the whitespace after it.  Each iteration consumes
at least the two leading hyphens, so the fuel `rem.length + 1` supplied by
`skipComments` is never exhausted. -/
def skipCommentsGo : Nat → List Char → Nat → Nat → Option Char →
    List Char × Nat × Nat × Option Char
  | 0, rem, line, col, prev => (rem, line, col, prev)
  | gas + 1, rem, line, col, prev =>
    match matchCOMMENT rem with
    | none => (rem, line, col, prev)
    | some k =>
      let lex := rem.take k
      let (rem2, line2, col2, prev2) :=
        skipWhitespace (rem.drop k) (advLine line lex) (advCol col lex)
          (lastOr lex prev)
      skipCommentsGo gas rem2 line2 col2 prev2

/-- Comment-and-whitespace alternation entered with sufficient fuel. -/
def skipComments (rem : List Char) (line col : Nat) (prev : Option Char) :
    List Char × Nat × Nat × Option Char :=
  skipCommentsGo (rem.length + 1) rem line col prev

/-- Embeds the main loop of `analyze` (`LexicalAnalyzer.py` lines 69-124):
skip whitespace and comments, stop with an EOF token at the end of input,
otherwise match one token; an unmatched character records an
unrecognised-character error and the cursor advances one character.  Every
iteration with a nonempty remainder consumes at least one character, so
the fuel `source.length + 1` supplied by `analyze` is never exhausted
(`analyzeGo_fuel_sufficient` below). -/
def analyzeGo (stop : Bool) : Nat → List Char → Nat → Nat → Option Char →
    List Token → List LexErr → Except LexErr (List Token × List LexErr)
  | 0, _, line, col, _, tokens, errors =>
    .ok (tokens ++ [mkEOF line col], errors)
  | gas + 1, rem, line, col, prev, tokens, errors =>
    let (rem1, line1, col1, prev1) := skipWhitespace rem line col prev
    let (rem2, line2, col2, prev2) := skipComments rem1 line1 col1 prev1
    match rem2 with
    | [] => .ok (tokens ++ [mkEOF line2 col2], errors)
    | c :: rest =>
      match matchToken stop prev2 (c :: rest) line2 col2 with
      | .error e => .error e
      | .ok (newErrs, .noMatch) =>
        analyzeGo stop gas rest line2 (col2 + 1) (some c) tokens
          ((errors ++ newErrs) ++ [.unrecognizedChar c line2 col2])
      | .ok (newErrs, .skipRes k nl nc) =>
        analyzeGo stop gas ((c :: rest).drop k) nl nc
          (lastOr ((c :: rest).take k) prev2) tokens (errors ++ newErrs)
      | .ok (newErrs, .tokRes t k nl nc) =>
        analyzeGo stop gas ((c :: rest).drop k) nl nc
          (lastOr ((c :: rest).take k) prev2) (tokens ++ [t])
          (errors ++ newErrs)

/-- Embeds `LexicalAnalyzer.analyze` (`LexicalAnalyzer.py` lines 47-124)
for a fresh analyzer (`pos = 0`, `line = 1`, `column = 1`, empty error
list). -/
def analyze (stop : Bool) (source : List Char) :
    Except LexErr (List Token × List LexErr) :=
  analyzeGo stop (source.length + 1) source 1 1 none [] []

instance instDecEqExcept {ε α : Type} [DecidableEq ε] [DecidableEq α] :
    DecidableEq (Except ε α) := fun x y =>
  match x, y with
  | .error a, .error b =>
    if h : a = b then .isTrue (congrArg Except.error h)
    else .isFalse (fun hh => h (Except.error.inj hh))
  | .ok a, .ok b =>
    if h : a = b then .isTrue (congrArg Except.ok h)
    else .isFalse (fun hh => h (Except.ok.inj hh))
  | .error _, .ok _ => .isFalse (fun hh => Except.noConfusion hh)
  | .ok _, .error _ => .isFalse (fun hh => Except.noConfusion hh)

/-- Parser error messages; each constructor carries the data interpolated
into the corresponding Python message (`Expected X, found 'lexeme'`, the
fixed `parseTypeMark` message, and `Extra tokens found after program
end.`). -/
inductive PMsg where
  | expectedFound (expected : TokenType) (found : List Char)
  | expectedTypeMark
  | extraTokens
  deriving DecidableEq

/-- Recorded parser error: the message decorated with the line and column
of the current token, as formatted by `RDParser.report_error`
(`RDParser.py` line 151). -/
structure PErr where
  line : Int
  col : Int
  msg : PMsg
  deriving DecidableEq

/-- Label of a parse tree node: a nonterminal (or `ε`) label, or the
token-kind name used for leaves. -/
inductive NodeName where
  | nt (s : String)
  | kind (tt : TokenType)
  deriving DecidableEq

/-- Parse tree node, mirroring `ParseTreeNode` (`RDParser.py` lines
456-470): a name, an optional token (present on leaves), and an ordered
child list. -/
inductive PTNode where
  | node (name : NodeName) (tok : Option Token) (children : List PTNode)

/-- Embeds `ParseTreeNode.add_child`. -/
def PTNode.addChild : PTNode → PTNode → PTNode
  | .node n t cs, c => .node n t (cs ++ [c])

/-- Appends a child when both the parent (tree building enabled) and the
child exist, as in `if parent_node: parent_node.add_child(leaf)` and
`if self.build_parse_tree and child: node.add_child(child)`. -/
def addLeaf (node : Option PTNode) (leaf : Option PTNode) : Option PTNode :=
  match node, leaf with
  | some n, some l => some (n.addChild l)
  | _, _ => node

/-- Parser state, mirroring the mutable attributes of `RDParser.__init__`
(`RDParser.py` lines 55-75).  `answers` models the stream of user replies
to the `input("Stop on error? (y/n): ")` prompt (`true` is `y`), consumed
via `prompts`; `fabricatedEOF` is a ghost flag set when `advance` falls
off the token list and fabricates a fresh EOF token. -/
structure PState where
  tokens : List Token
  current_index : Nat
  current_token : Token
  errors : List PErr
  answers : List Bool
  prompts : Nat
  fabricatedEOF : Bool
  deriving DecidableEq

/-- The fabricated token of `RDParser.advance`
(`RDParser.py` line 99): kind EOF, lexeme `EOF`, position (-1, -1). -/
def fabEOF : Token :=
  { token_type := .EOF, lexeme := ("EOF").toList, line_number := -1,
    column_number := -1, value := none, literal_value := none }

/-- Embeds `RDParser.report_error` (`RDParser.py` lines 146-157): the
message is decorated with the current token's position and appended; with
`stop_on_error` the user is prompted, and an affirmative reply raises
(`Except.error` carrying the final state). -/
def report_errorE (stop : Bool) (m : PMsg) (s : PState) : Except PState PState :=
  let e : PErr := { line := s.current_token.line_number,
                    col := s.current_token.column_number, msg := m }
  let s1 := { s with errors := s.errors ++ [e] }
  if stop then
    let ans := s1.answers.getD s1.prompts false
    let s2 := { s1 with prompts := s1.prompts + 1 }
    if ans then .error s2 else .ok s2
  else .ok s1

/-- Embeds `RDParser.advance` (`RDParser.py` lines 93-99): step the index;
past the end of the list, fabricate a fresh EOF token (and set the ghost
flag recording that the fallback ran). -/
def advanceE (s : PState) : PState :=
  let i := s.current_index + 1
  if h : i < s.tokens.length then
    { s with current_index := i, current_token := s.tokens.get ⟨i, h⟩ }
  else
    { s with
      current_index := i
      current_token := fabEOF
      fabricatedEOF := true }

/-- Effective kind used by `match` and `match_leaf` (`RDParser.py` lines
106-114 and 127-135): a token of kind ID whose upper-cased lexeme is
reserved is treated as having the reserved kind. -/
def effectiveKind (t : Token) : TokenType :=
  if t.token_type = .ID then
    match get_reserved_token (upperList t.lexeme) with
    | some r => r
    | none => t.token_type
  else t.token_type

/-- Embeds `RDParser.match` (`RDParser.py` lines 101-120): on an effective
kind match, advance; otherwise record `Expected X, found 'lexeme'`.  The
cursor is not moved on mismatch and `panic_mode_recover` is not
consulted. -/
def matchE (stop : Bool) (expected : TokenType) (s : PState) :
    Except PState PState :=
  if effectiveKind s.current_token = expected then
    .ok (advanceE s)
  else
    report_errorE stop (.expectedFound expected s.current_token.lexeme) s

/-- Embeds `RDParser.match_leaf` (`RDParser.py` lines 122-144): as `match`
but additionally returning the leaf node to be attached by the caller
(attached only when the caller passed a parent, i.e. when tree building is
enabled). -/
def match_leafE (stop : Bool) (expected : TokenType) (s : PState) :
    Except PState (PState × Option PTNode) :=
  if effectiveKind s.current_token = expected then
    .ok (advanceE s, some (.node (.kind expected) (some s.current_token) []))
  else
    match report_errorE stop (.expectedFound expected s.current_token.lexeme) s with
    | .error s' => .error s'
    | .ok s' => .ok (s', none)

/-- Loop of `RDParser.panic_recovery` (`RDParser.py` lines 166-168): skip
tokens while the current kind is neither in the synchronisation set nor
EOF.  After the index passes the list the fabricated EOF stops the loop,
so the fuel `tokens.length + 2` supplied by `panic_recoveryE` is never
exhausted on states whose index is within bounds. -/
def panicGo (sync : List TokenType) : Nat → PState → PState
  | 0, s => s
  | gas + 1, s =>
    if ¬(s.current_token.token_type ∈ sync) ∧
       ¬(s.current_token.token_type = .EOF) then
      panicGo sync gas (advanceE s)
    else s

/-- Embeds `RDParser.panic_recovery` (`RDParser.py` lines 159-169): a
no-op unless `panic_mode_recover` is set (the synchronisation set, a
Python `set`, is modelled by a list consulted only for membership).  No
grammar routine of the parser invokes this method. -/
def panic_recoveryE (panic : Bool) (sync : List TokenType) (s : PState) : PState :=
  if !panic then s
  else panicGo sync (s.tokens.length + 2) s

/-- Embeds `RDParser.parseValue` (`RDParser.py` lines 316-326). -/
def parseValueE (stop tree : Bool) (s : PState) :
    Except PState (PState × Option PTNode) :=
  let node : Option PTNode :=
    if tree then some (.node (.nt ("Value")) none []) else none
  match match_leafE stop .NUM s with
  | .error s' => .error s'
  | .ok (s1, leaf) => .ok (s1, addLeaf node leaf)

/-- Embeds `RDParser.parseTypeMark` (`RDParser.py` lines 292-314). -/
def parseTypeMarkE (stop tree : Bool) (s : PState) :
    Except PState (PState × Option PTNode) :=
  let node : Option PTNode :=
    if tree then some (.node (.nt ("TypeMark")) none []) else none
  if s.current_token.token_type = .INTEGERT ∨
     s.current_token.token_type = .REALT ∨
     s.current_token.token_type = .CHART then
    match match_leafE stop s.current_token.token_type s with
    | .error s' => .error s'
    | .ok (s1, leaf) => .ok (s1, addLeaf node leaf)
  else if s.current_token.token_type = .CONSTANT then
    match match_leafE stop .CONSTANT s with
    | .error s' => .error s'
    | .ok (s1, leaf1) =>
      match match_leafE stop .ASSIGN s1 with
      | .error s' => .error s'
      | .ok (s2, leaf2) =>
        match parseValueE stop tree s2 with
        | .error s' => .error s'
        | .ok (s3, child) =>
          .ok (s3, addLeaf (addLeaf (addLeaf node leaf1) leaf2) child)
  else
    match report_errorE stop .expectedTypeMark s with
    | .error s' => .error s'
    | .ok s' => .ok (s', node)

/-- Embeds `RDParser.parseMode` (`RDParser.py` lines 416-438). -/
def parseModeE (stop tree : Bool) (s : PState) :
    Except PState (PState × Option PTNode) :=
  let node : Option PTNode :=
    if tree then some (.node (.nt ("Mode")) none []) else none
  if s.current_token.token_type = .IN ∨
     s.current_token.token_type = .OUT ∨
     s.current_token.token_type = .INOUT then
    match match_leafE stop s.current_token.token_type s with
    | .error s' => .error s'
    | .ok (s1, leaf) => .ok (s1, addLeaf node leaf)
  else
    .ok (s, addLeaf node (some (.node (.nt ("ε")) none [])))

/-- Embeds `RDParser.parseSeqOfStatements` (`RDParser.py` lines 440-451):
the grammar admits only the empty statement sequence. -/
def parseSeqOfStatementsE (tree : Bool) (s : PState) :
    Except PState (PState × Option PTNode) :=
  let node : Option PTNode :=
    if tree then some (.node (.nt ("SeqOfStatements")) none []) else none
  .ok (s, addLeaf node (some (.node (.nt ("ε")) none [])))

/-- Tags for the recursive nonterminal methods of `RDParser`.  They are
mutually recursive in the source (`Prog ↔ Procedures`,
`Args → ArgList ↔ MoreArgs`, `DeclarativePart` and the identifier-list
comma loop recurse on themselves); the embedding dispatches them through
one fuel-indexed function so that the recursion is structural.  `idLoop`
carries the node accumulated so far by `parseIdentifierList`. -/
inductive NT where
  | prog
  | declPart
  | idList
  | idLoop (node : Option PTNode)
  | procedures
  | args
  | argList
  | moreArgs

/-- Bodies of the recursive nonterminal methods of `RDParser`
(`RDParser.py` lines 210-438), one per `NT` tag; each recursive call uses
the structurally smaller fuel. -/
def parseStep (stop tree : Bool) : Nat → NT → PState →
    Except PState (PState × Option PTNode)
  | 0, _, s => .ok (s, none)
  | fuel + 1, nt, s =>
    match nt with
    | .prog =>
      -- parseProg, lines 210-248
      if tree then
        let node : PTNode := .node (.nt ("Prog")) none []
        match match_leafE stop .PROCEDURE s with
        | .error s' => .error s'
        | .ok (s1, l1) =>
          let node := addLeaf (some node) l1
          match match_leafE stop .ID s1 with
          | .error s' => .error s'
          | .ok (s2, l2) =>
            let node := addLeaf node l2
            match parseStep stop tree fuel .args s2 with
            | .error s' => .error s'
            | .ok (s3, c1) =>
              let node := addLeaf node c1
              match match_leafE stop .IS s3 with
              | .error s' => .error s'
              | .ok (s4, l3) =>
                let node := addLeaf node l3
                match parseStep stop tree fuel .declPart s4 with
                | .error s' => .error s'
                | .ok (s5, c2) =>
                  let node := addLeaf node c2
                  match parseStep stop tree fuel .procedures s5 with
                  | .error s' => .error s'
                  | .ok (s6, c3) =>
                    let node := addLeaf node c3
                    match match_leafE stop .BEGIN s6 with
                    | .error s' => .error s'
                    | .ok (s7, l4) =>
                      let node := addLeaf node l4
                      match parseSeqOfStatementsE tree s7 with
                      | .error s' => .error s'
                      | .ok (s8, c4) =>
                        let node := addLeaf node c4
                        match match_leafE stop .END s8 with
                        | .error s' => .error s'
                        | .ok (s9, l5) =>
                          let node := addLeaf node l5
                          match match_leafE stop .ID s9 with
                          | .error s' => .error s'
                          | .ok (s10, l6) =>
                            let node := addLeaf node l6
                            match match_leafE stop .SEMICOLON s10 with
                            | .error s' => .error s'
                            | .ok (s11, l7) =>
                              .ok (s11, addLeaf node l7)
      else
        match matchE stop .PROCEDURE s with
        | .error s' => .error s'
        | .ok s1 =>
          match matchE stop .ID s1 with
          | .error s' => .error s'
          | .ok s2 =>
            match parseStep stop tree fuel .args s2 with
            | .error s' => .error s'
            | .ok (s3, _) =>
              match matchE stop .IS s3 with
              | .error s' => .error s'
              | .ok s4 =>
                match parseStep stop tree fuel .declPart s4 with
                | .error s' => .error s'
                | .ok (s5, _) =>
                  match parseStep stop tree fuel .procedures s5 with
                  | .error s' => .error s'
                  | .ok (s6, _) =>
                    match matchE stop .BEGIN s6 with
                    | .error s' => .error s'
                    | .ok s7 =>
                      match parseSeqOfStatementsE tree s7 with
                      | .error s' => .error s'
                      | .ok (s8, _) =>
                        match matchE stop .END s8 with
                        | .error s' => .error s'
                        | .ok s9 =>
                          match matchE stop .ID s9 with
                          | .error s' => .error s'
                          | .ok s10 =>
                            match matchE stop .SEMICOLON s10 with
                            | .error s' => .error s'
                            | .ok s11 => .ok (s11, none)
    | .declPart =>
      -- parseDeclarativePart, lines 250-275
      let node : Option PTNode :=
        if tree then some (.node (.nt ("DeclarativePart")) none []) else none
      if s.current_token.token_type = .ID then
        match parseStep stop tree fuel .idList s with
        | .error s' => .error s'
        | .ok (s1, c1) =>
          let node := addLeaf node c1
          match match_leafE stop .COLON s1 with
          | .error s' => .error s'
          | .ok (s2, l1) =>
            let node := addLeaf node l1
            match parseTypeMarkE stop tree s2 with
            | .error s' => .error s'
            | .ok (s3, c2) =>
              let node := addLeaf node c2
              match match_leafE stop .SEMICOLON s3 with
              | .error s' => .error s'
              | .ok (s4, l2) =>
                let node := addLeaf node l2
                match parseStep stop tree fuel .declPart s4 with
                | .error s' => .error s'
                | .ok (s5, c3) => .ok (s5, addLeaf node c3)
      else
        match node with
        | some n => .ok (s, some (n.addChild (.node (.nt ("ε")) none [])))
        | none => .ok (s, none)
    | .idList =>
      -- parseIdentifierList, lines 277-290 (entry)
      let node : Option PTNode :=
        if tree then some (.node (.nt ("IdentifierList")) none []) else none
      match match_leafE stop .ID s with
      | .error s' => .error s'
      | .ok (s1, l1) => parseStep stop tree fuel (.idLoop (addLeaf node l1)) s1
    | .idLoop node =>
      -- parseIdentifierList, lines 287-289 (comma loop)
      if s.current_token.token_type = .COMMA then
        match match_leafE stop .COMMA s with
        | .error s' => .error s'
        | .ok (s1, l1) =>
          let node := addLeaf node l1
          match match_leafE stop .ID s1 with
          | .error s' => .error s'
          | .ok (s2, l2) => parseStep stop tree fuel (.idLoop (addLeaf node l2)) s2
      else .ok (s, node)
    | .procedures =>
      -- parseProcedures, lines 328-349
      let node : Option PTNode :=
        if tree then some (.node (.nt ("Procedures")) none []) else none
      if s.current_token.token_type = .PROCEDURE then
        match parseStep stop tree fuel .prog s with
        | .error s' => .error s'
        | .ok (s1, c1) =>
          let node := addLeaf node c1
          match parseStep stop tree fuel .procedures s1 with
          | .error s' => .error s'
          | .ok (s2, c2) => .ok (s2, addLeaf node c2)
      else
        match node with
        | some n => .ok (s, some (n.addChild (.node (.nt ("ε")) none [])))
        | none => .ok (s, none)
    | .args =>
      -- parseArgs, lines 351-372
      let node : Option PTNode :=
        if tree then some (.node (.nt ("Args")) none []) else none
      if s.current_token.token_type = .LPAREN then
        match match_leafE stop .LPAREN s with
        | .error s' => .error s'
        | .ok (s1, l1) =>
          let node := addLeaf node l1
          match parseStep stop tree fuel .argList s1 with
          | .error s' => .error s'
          | .ok (s2, c1) =>
            let node := addLeaf node c1
            match match_leafE stop .RPAREN s2 with
            | .error s' => .error s'
            | .ok (s3, l2) => .ok (s3, addLeaf node l2)
      else
        match node with
        | some n => .ok (s, some (n.addChild (.node (.nt ("ε")) none [])))
        | none => .ok (s, none)
    | .argList =>
      -- parseArgList, lines 374-392
      let node : Option PTNode :=
        if tree then some (.node (.nt ("ArgList")) none []) else none
      match parseModeE stop tree s with
      | .error s' => .error s'
      | .ok (s1, c1) =>
        let node := addLeaf node c1
        match parseStep stop tree fuel .idList s1 with
        | .error s' => .error s'
        | .ok (s2, c2) =>
          let node := addLeaf node c2
          match match_leafE stop .COLON s2 with
          | .error s' => .error s'
          | .ok (s3, l1) =>
            let node := addLeaf node l1
            match parseTypeMarkE stop tree s3 with
            | .error s' => .error s'
            | .ok (s4, c3) =>
              let node := addLeaf node c3
              match parseStep stop tree fuel .moreArgs s4 with
              | .error s' => .error s'
              | .ok (s5, c4) => .ok (s5, addLeaf node c4)
    | .moreArgs =>
      -- parseMoreArgs, lines 394-414
      let node : Option PTNode :=
        if tree then some (.node (.nt ("MoreArgs")) none []) else none
      if s.current_token.token_type = .SEMICOLON then
        match match_leafE stop .SEMICOLON s with
        | .error s' => .error s'
        | .ok (s1, l1) =>
          let node := addLeaf node l1
          match parseStep stop tree fuel .argList s1 with
          | .error s' => .error s'
          | .ok (s2, c1) => .ok (s2, addLeaf node c1)
      else
        match node with
        | some n => .ok (s, some (n.addChild (.node (.nt ("ε")) none [])))
        | none => .ok (s, none)

/-- Readable wrapper: `RDParser.parseProg`. -/
def parseProgE (stop tree : Bool) (fuel : Nat) (s : PState) :
    Except PState (PState × Option PTNode) :=
  parseStep stop tree fuel .prog s

/-- Embeds `RDParser.parse` (`RDParser.py` lines 77-91): run `parseProg`,
keep the root when tree building is enabled, report
`Extra tokens found after program end.` unless the current token is EOF,
and return whether the error list is empty.  The `panic` flag is the
`panic_mode_recover` constructor argument; no code path of `parse`
consults it, since no grammar routine invokes `panic_recovery`. -/
def parseE (stop panic tree : Bool) (fuel : Nat) (s : PState) :
    Except PState (PState × Bool × Option PTNode) :=
  match parseProgE stop tree fuel s with
  | .error s' => .error s'
  | .ok (s1, root) =>
    let root := if tree then root else none
    if ¬(s1.current_token.token_type = .EOF) then
      match report_errorE stop .extraTokens s1 with
      | .error s2 => .error s2
      | .ok s2 => .ok (s2, (s2.errors.isEmpty, root))
    else .ok (s1, (s1.errors.isEmpty, root))

/-- Embeds `RDParser.__init__` (`RDParser.py` lines 66-68): the initial
state over a token list; an empty list leaves `current_token` as `None`
in the source, on which `parse` immediately crashes, modelled by
`none`. -/
def initState (tokens : List Token) (answers : List Bool) : Option PState :=
  match tokens with
  | [] => none
  | t :: _ =>
    some { tokens := tokens, current_index := 0, current_token := t,
           errors := [], answers := answers, prompts := 0,
           fabricatedEOF := false }

/-- Constructing a parser over `tokens` and running `parse`. -/
def parseRun (stop panic tree : Bool) (fuel : Nat) (tokens : List Token)
    (answers : List Bool) :
    Option (Except PState (PState × Bool × Option PTNode)) :=
  (initState tokens answers).map (parseE stop panic tree fuel)

/-- State projection of a parser step (drops the returned node). -/
def stP {α : Type} (e : Except PState (PState × α)) : Except PState PState :=
  e.map Prod.fst

/-- Observable outcome of `parse`: final state and success flag, with the
parse tree dropped. -/
def obsP (e : Except PState (PState × Bool × Option PTNode)) :
    Except PState (PState × Bool) :=
  e.map (fun r => (r.1, r.2.1))

/-- Well-formed interior of a string literal, following the claim: a
sequence of non-quote non-newline characters and doubled quotes. -/
inductive LitItems : List Char → Prop where
  | nil : LitItems []
  | chr (c : Char) (rest : List Char) : ¬(c = '"') → ¬(c = '\n') →
      LitItems rest → LitItems (c :: rest)
  | pair (rest : List Char) : LitItems rest → LitItems ('"' :: '"' :: rest)

/-- Doubling of embedded double quotes, the re-encoding map named by the
round-trip claim (the inverse direction of `pyReplaceQQ`). -/
def doubleQuotes : List Char → List Char
  | [] => []
  | '"' :: rest => '"' :: '"' :: doubleQuotes rest
  | c :: rest => c :: doubleQuotes rest

/-- Re-encoding of a decoded literal value, following the claim:
surround with double quotes and double every embedded double quote. -/
def pyEncodeLit (v : List Char) : List Char :=
  '"' :: (doubleQuotes v ++ ['"'])

/-- Parser-state invariant of the safety claim: the current token is the
list element at the current index, and the fabricated-EOF fallback of
`advance` has never run. -/
def PInv (s : PState) : Prop :=
  s.tokens.get? s.current_index = some s.current_token ∧
  s.fabricatedEOF = false

/-- Token list whose last element has kind EOF. -/
def lastIsEOF (ts : List Token) : Prop :=
  ts.getLast?.map Token.token_type = some TokenType.EOF

/-- Result form of the safety invariant: whichever constructor a parser
step returns, the state it carries satisfies `PInv` and still holds the
original token list `t0`. -/
def RInv {T : Type} (t0 : List Token) : Except PState (PState × T) → Prop
  | .error s' => PInv s' ∧ s'.tokens = t0
  | .ok (s', _) => PInv s' ∧ s'.tokens = t0

/-- `RInv` for steps that return a bare state (`matchE`). -/
def EInv (t0 : List Token) : Except PState PState → Prop
  | .error s' => PInv s' ∧ s'.tokens = t0
  | .ok s' => PInv s' ∧ s'.tokens = t0

/-- Two `NT` tags of the same case (the node accumulator carried by
`idLoop` may differ). -/
def NT.sameCase : NT → NT → Prop
  | .prog, .prog => True
  | .declPart, .declPart => True
  | .idList, .idList => True
  | .idLoop _, .idLoop _ => True
  | .procedures, .procedures => True
  | .args, .args => True
  | .argList, .argList => True
  | .moreArgs, .moreArgs => True
  | _, _ => False

/-- Convenience token for parser-level statements: a kind with its lexeme
on line 1. -/
def tokW (k : TokenType) (lx : List Char) (col : Int) : Token :=
  { token_type := k, lexeme := lx, line_number := 1, column_number := col,
    value := none, literal_value := none }

/-- Token stream of the one-line program `procedure f is begin end f;`,
as the scanner emits it (reserved kinds folded, trailing EOF). -/
def toksW : List Token :=
  [tokW .PROCEDURE (("procedure").toList) 1,
   tokW .ID (("f").toList) 11,
   tokW .IS (("is").toList) 13,
   tokW .BEGIN (("begin").toList) 16,
   tokW .END (("end").toList) 22,
   tokW .ID (("f").toList) 26,
   tokW .SEMICOLON ((";").toList) 28,
   mkEOF 1 29]

/-! Helper lemmas about the reserved map and the token kinds `_match_token`
can emit. -/

theorem reserved_values_not_id_eof :
    ∀ q ∈ reserved_words, ¬(q.2 = TokenType.ID) ∧ ¬(q.2 = TokenType.EOF) := by
  decide

theorem get_reserved_token_ne {w : List Char} {tt : TokenType}
    (h : get_reserved_token w = some tt) :
    ¬(tt = TokenType.ID) ∧ ¬(tt = TokenType.EOF) := by
  unfold get_reserved_token at h
  cases hf : List.find? (fun p => p.1.toList == upperList w) reserved_words with
  | none => rw [hf] at h; cases h
  | some p =>
    rw [hf] at h
    simp only [Option.map_some'] at h
    injection h with h
    have hm := List.mem_of_find?_eq_some hf
    have hv := reserved_values_not_id_eof p hm
    rw [h] at hv
    exact hv

theorem processIdentifier_some {lex : List Char} {line col : Nat}
    {errs : List LexErr} {tt : TokenType}
    (h : processIdentifier lex line col = (errs, some tt)) :
    ¬(tt = TokenType.EOF) ∧ (tt = TokenType.ID → lex.length ≤ 17) := by
  unfold processIdentifier at h
  split at h
  · have h2 : get_reserved_token lex = some tt := by
      have := congrArg Prod.snd h
      simpa using this
    rcases get_reserved_token_ne h2 with ⟨hid, heof⟩
    exact ⟨heof, fun hId => absurd hId hid⟩
  · split at h
    · simp at h
    · next hlen =>
      have h2 : tt = TokenType.ID := by
        have := congrArg Prod.snd h
        simp at this
        exact this.symm
      subst h2
      exact ⟨by decide, fun _ => by omega⟩

theorem simpleTail_kind {prev : Option Char} {rem : List Char}
    {tt : TokenType} {k : Nat} (h : simpleTail prev rem = some (tt, k)) :
    ¬(tt = TokenType.EOF) ∧ ¬(tt = TokenType.ID) := by
  unfold simpleTail at h
  repeat' split at h
  all_goals cases h
  all_goals exact ⟨by decide, by decide⟩

theorem matchToken_tok {stop : Bool} {prev : Option Char} {rem : List Char}
    {line col : Nat} {errs : List LexErr} {t : Token} {k nl nc : Nat}
    (h : matchToken stop prev rem line col = .ok (errs, .tokRes t k nl nc)) :
    ¬(t.token_type = TokenType.EOF) ∧
    (t.token_type = TokenType.ID → t.lexeme.length ≤ 17) := by
  unfold matchToken at h
  dsimp only at h
  split at h
  · -- CONCAT
    simp only [Except.ok.injEq, Prod.mk.injEq, MTRes.tokRes.injEq] at h
    obtain ⟨-, ht, -⟩ := h
    subst ht
    exact ⟨by simp [mkToken], by simp [mkToken]⟩
  · split at h
    · -- unterminated lookahead: skipRes, not tokRes
      simp at h
    · split at h
      · -- LITERAL
        split at h
        · cases h
        · simp at h
        · next heq =>
          simp only [Except.ok.injEq, Prod.mk.injEq, MTRes.tokRes.injEq] at h
          obtain ⟨-, ht, -⟩ := h
          subst ht
          have : TokenType.LITERAL = TokenType.LITERAL := rfl
          -- the processor returns kind LITERAL
          unfold processLiteral at heq
          split at heq
          · split at heq
            · cases heq
            · simp at heq
          · simp only [Except.ok.injEq, Prod.mk.injEq, Option.some.injEq] at heq
            obtain ⟨-, htt, -⟩ := heq
            subst htt
            exact ⟨by simp [mkToken], by simp [mkToken]⟩
      · split at h
        · -- CHAR_LITERAL
          split at h
          · cases h
          · next heq =>
            simp only [Except.ok.injEq, Prod.mk.injEq, MTRes.tokRes.injEq] at h
            obtain ⟨-, ht, -⟩ := h
            subst ht
            unfold processCharLiteral at heq
            split at heq
            · split at heq
              · cases heq
              · simp only [Except.ok.injEq, Prod.mk.injEq] at heq
                obtain ⟨-, htt, -⟩ := heq
                subst htt
                exact ⟨by simp [mkToken], by simp [mkToken]⟩
            · simp only [Except.ok.injEq, Prod.mk.injEq] at heq
              obtain ⟨-, htt, -⟩ := heq
              subst htt
              exact ⟨by simp [mkToken], by simp [mkToken]⟩
        · split at h
          · -- REAL
            split at h
            · cases h
            · next heq =>
              simp only [Except.ok.injEq, Prod.mk.injEq, MTRes.tokRes.injEq] at h
              obtain ⟨-, ht, -⟩ := h
              subst ht
              unfold processReal at heq
              split at heq
              · simp only [Except.ok.injEq, Prod.mk.injEq] at heq
                obtain ⟨-, htt, -⟩ := heq
                subst htt
                exact ⟨by simp [mkToken], by simp [mkToken]⟩
              · split at heq
                · cases heq
                · simp only [Except.ok.injEq, Prod.mk.injEq] at heq
                  obtain ⟨-, htt, -⟩ := heq
                  subst htt
                  exact ⟨by simp [mkToken], by simp [mkToken]⟩
          · split at h
            · -- NUM
              split at h
              · cases h
              · next heq =>
                simp only [Except.ok.injEq, Prod.mk.injEq, MTRes.tokRes.injEq] at h
                obtain ⟨-, ht, -⟩ := h
                subst ht
                unfold processNum at heq
                split at heq
                · simp only [Except.ok.injEq, Prod.mk.injEq] at heq
                  obtain ⟨-, htt, -⟩ := heq
                  subst htt
                  exact ⟨by simp [mkToken], by simp [mkToken]⟩
                · split at heq
                  · cases heq
                  · simp only [Except.ok.injEq, Prod.mk.injEq] at heq
                    obtain ⟨-, htt, -⟩ := heq
                    subst htt
                    exact ⟨by simp [mkToken], by simp [mkToken]⟩
            · split at h
              · -- ID
                split at h
                · simp at h
                · next heq =>
                  simp only [Except.ok.injEq, Prod.mk.injEq, MTRes.tokRes.injEq] at h
                  obtain ⟨-, ht, -⟩ := h
                  subst ht
                  rcases processIdentifier_some heq with ⟨heof, hlen⟩
                  refine ⟨by simpa [mkToken] using heof, ?_⟩
                  intro hid
                  simp only [mkToken] at hid ⊢
                  exact hlen hid
              · -- simple tail
                split at h
                · next tt2 k2 htail =>
                  simp only [Except.ok.injEq, Prod.mk.injEq, MTRes.tokRes.injEq] at h
                  obtain ⟨-, ht, -⟩ := h
                  subst ht
                  rcases simpleTail_kind htail with ⟨he, hi⟩
                  refine ⟨by simpa [mkToken] using he, ?_⟩
                  intro hid
                  simp only [mkToken] at hid
                  exact absurd hid hi
                · simp at h

theorem analyzeGo_shape :
    ∀ (gas : Nat) (stop : Bool) (rem : List Char) (line col : Nat)
      (prev : Option Char) (tokens : List Token) (errors : List LexErr)
      (ts : List Token) (errs : List LexErr),
      analyzeGo stop gas rem line col prev tokens errors = .ok (ts, errs) →
      ∃ mid lastTok, ts = tokens ++ (mid ++ [lastTok]) ∧
        lastTok.token_type = TokenType.EOF ∧
        ∀ t ∈ mid, ∃ stop' prev' rem' l' c' errs' k nl nc,
          matchToken stop' prev' rem' l' c' = .ok (errs', .tokRes t k nl nc) := by
  intro gas
  induction gas with
  | zero =>
    intro stop rem line col prev tokens errors ts errs h
    unfold analyzeGo at h
    simp only [Except.ok.injEq, Prod.mk.injEq] at h
    obtain ⟨h1, -⟩ := h
    exact ⟨[], mkEOF line col, by simpa using h1.symm, rfl, by simp⟩
  | succ gas ih =>
    intro stop rem line col prev tokens errors ts errs h
    unfold analyzeGo at h
    dsimp only at h
    split at h
    · simp only [Except.ok.injEq, Prod.mk.injEq] at h
      obtain ⟨h1, -⟩ := h
      exact ⟨[], mkEOF _ _, by simpa using h1.symm, rfl, by simp⟩
    · split at h
      · cases h
      · exact ih _ _ _ _ _ _ _ _ _ h
      · exact ih _ _ _ _ _ _ _ _ _ h
      · next newErrs t' k' nl' nc' hmt =>
        obtain ⟨mid, lastTok, hts, hk, hm⟩ := ih _ _ _ _ _ _ _ _ _ h
        refine ⟨t' :: mid, lastTok, ?_, hk, ?_⟩
        · rw [hts]; simp
        · intro t ht
          rcases List.mem_cons.mp ht with rfl | hmem
          · exact ⟨_, _, _, _, _, _, _, _, _, hmt⟩
          · exact hm t hmem

/-- C6: for every input string, `analyze` returns a non-empty token list
whose last element has kind EOF and in which no element other than the
last has kind EOF.  (The hypothesis states that `analyze` returned a
list: with `stop_on_error` the scanner may instead raise.) -/
theorem C6_eof_terminator :
    ∀ (stop : Bool) (source : List Char) (ts : List Token)
      (errs : List LexErr),
      analyze stop source = .ok (ts, errs) →
      ¬(ts = []) ∧ ts.getLast?.map Token.token_type = some TokenType.EOF ∧
      ∀ t ∈ ts.dropLast, ¬(t.token_type = TokenType.EOF) := by
  intro stop source ts errs h
  unfold analyze at h
  obtain ⟨mid, lastTok, hts, hk, hm⟩ := analyzeGo_shape _ _ _ _ _ _ _ _ _ _ h
  simp only [List.nil_append] at hts
  subst hts
  refine ⟨by simp, ?_, ?_⟩
  · rw [List.getLast?_concat]
    simp [hk]
  · rw [List.dropLast_concat]
    intro t ht
    obtain ⟨_, _, _, _, _, _, _, _, _, hmt⟩ := hm t ht
    exact (matchToken_tok hmt).1

/-- Witness for C6 at the empty source. -/
theorem C6_eof_terminator_witness :
    ¬(([mkEOF 1 1] : List Token) = []) ∧
    ([mkEOF 1 1] : List Token).getLast?.map Token.token_type =
      some TokenType.EOF ∧
    ∀ t ∈ ([mkEOF 1 1] : List Token).dropLast,
      ¬(t.token_type = TokenType.EOF) :=
  C6_eof_terminator false [] [mkEOF 1 1] [] (by decide)

/-- C7: no emitted ID token has a lexeme longer than 17 characters; a
matched non-reserved identifier longer than 17 characters records an
identifier-too-long error and produces a skip whose consumed length is the
whole lexeme (so the cursor advances past it and no token is emitted). -/
theorem C7_identifier_bound :
    (∀ (stop : Bool) (source : List Char) (ts : List Token)
        (errs : List LexErr),
        analyze stop source = .ok (ts, errs) →
        ∀ t ∈ ts, t.token_type = TokenType.ID → t.lexeme.length ≤ 17) ∧
    (∀ (lexeme : List Char) (line col : Nat),
        is_reserved lexeme = false → lexeme.length > 17 →
        processIdentifier lexeme line col =
          ([.identifierTooLong lexeme line col], none)) ∧
    (∀ (stop : Bool) (prev : Option Char) (rem : List Char)
        (line col : Nat) (k : Nat),
        matchCONCAT rem = none → litGuard rem line col = none →
        matchLITERAL rem = none → matchCHAR_LITERAL rem = none →
        matchREAL rem = none → matchNUM rem = none →
        matchID rem = some k →
        is_reserved (rem.take k) = false → (rem.take k).length > 17 →
        matchToken stop prev rem line col =
          .ok ([.identifierTooLong (rem.take k) line col],
               .skipRes k (advLine line (rem.take k))
                 (advCol col (rem.take k)))) := by
  refine ⟨?_, ?_, ?_⟩
  · intro stop source ts errs h t ht hid
    unfold analyze at h
    obtain ⟨mid, lastTok, hts, hk, hm⟩ := analyzeGo_shape _ _ _ _ _ _ _ _ _ _ h
    simp only [List.nil_append] at hts
    subst hts
    rcases List.mem_append.mp ht with hmem | hlast
    · obtain ⟨_, _, _, _, _, _, _, _, _, hmt⟩ := hm t hmem
      exact (matchToken_tok hmt).2 hid
    · have : t = lastTok := by simpa using hlast
      subst this
      rw [hid] at hk
      cases hk
  · intro lexeme line col hres hlen
    unfold processIdentifier
    rw [hres]
    simp [hlen]
  · intro stop prev rem line col k h1 h2 h3 h4 h5 h6 h7 h8 h9
    unfold matchToken
    rw [h1, h2, h3, h4, h5, h6, h7]
    dsimp only
    unfold processIdentifier
    rw [h8]
    simp only [List.length_take, gt_iff_lt, lt_min_iff] at h9
    simp [h9.1, h9.2]

/-- Witness for C7: an 18-character identifier is skipped with an error;
the other conjuncts are instantiated at an analysed input containing an ID
token. -/
theorem C7_identifier_bound_witness :
    (∀ t ∈ ([mkToken .ID (("x").toList) 1 1 none none, mkEOF 1 2] :
        List Token), t.token_type = TokenType.ID → t.lexeme.length ≤ 17) ∧
    processIdentifier (List.replicate 18 'a') 1 1 =
      ([.identifierTooLong (List.replicate 18 'a') 1 1], none) ∧
    matchToken false none (List.replicate 18 'a') 1 1 =
      .ok ([.identifierTooLong (List.replicate 18 'a') 1 1],
           .skipRes 18 1 19) := by
  refine ⟨C7_identifier_bound.1 false (("x").toList) _ [] (by decide), ?_, ?_⟩
  · exact C7_identifier_bound.2.1 _ 1 1 (by decide) (by decide)
  · have h := C7_identifier_bound.2.2 false none (List.replicate 18 'a') 1 1 18
      (by decide) (by decide) (by decide) (by decide) (by decide) (by decide)
      (by decide) (by decide) (by decide)
    simpa using h

theorem countWhile_all {l : List Char} {p : Char → Bool}
    (h : ∀ c ∈ l, p c = true) : countWhile p l = l.length := by
  induction l with
  | nil => rfl
  | cons c r ih =>
    have hc := h c (by simp)
    simp [countWhile, hc, ih (fun d hd => h d (by simp [hd]))]

theorem analyzeGo_unrecognized_step :
    ∀ (stop : Bool) (gas : Nat) (c : Char) (rest : List Char)
      (line col : Nat) (prev : Option Char) (tokens : List Token)
      (errors : List LexErr),
      matchWHITESPACE (c :: rest) = none →
      matchCOMMENT (c :: rest) = none →
      matchToken stop prev (c :: rest) line col = .ok ([], .noMatch) →
      analyzeGo stop (gas + 1) (c :: rest) line col prev tokens errors =
        analyzeGo stop gas rest line (col + 1) (some c) tokens
          (errors ++ [.unrecognizedChar c line col]) := by
  intro stop gas c rest line col prev tokens errors hws hcm hmt
  have h1 : skipWhitespace (c :: rest) line col prev = (c :: rest, line, col, prev) := by
    unfold skipWhitespace
    rw [hws]
  have h2 : skipComments (c :: rest) line col prev = (c :: rest, line, col, prev) := by
    unfold skipComments skipCommentsGo
    rw [hcm]
  conv_lhs => unfold analyzeGo
  rw [h1]
  dsimp only
  rw [h2]
  dsimp only
  rw [hmt]
  simp only [List.append_nil]

/-- C5 counterexample: a form feed is silently skipped as whitespace (the
live WHITESPACE class contains Python's `\s`), so `analyze` returns no
error for it, while the claim demands an unrecognised-character error. -/
theorem C5_whitespace_counterexample :
    wsClass '\u000c' = true ∧
    analyze false ['\u000c'] = .ok ([mkEOF 1 2], []) := by
  decide

/-- C5 amended: the silently skipped characters are exactly those of the
class `[ \t\r\s\n]`, which contains Python's whole `\s` set — in
particular form feed and vertical tab — and any input consisting only of
such characters scans to a bare EOF token with no errors; a character
outside the class at which no pattern matches records an
unrecognised-character error, after which the cursor advances by exactly
one character and scanning continues. -/
theorem C5_whitespace_amended :
    (wsClass ' ' = true ∧ wsClass '\t' = true ∧ wsClass '\r' = true ∧
     wsClass '\n' = true ∧ wsClass '\u000c' = true ∧
     wsClass '\u000b' = true) ∧
    (∀ (stop : Bool) (l : List Char), (∀ c ∈ l, wsClass c = true) →
      analyze stop l = .ok ([mkEOF (advLine 1 l) (advCol 1 l)], [])) ∧
    (∀ (stop : Bool) (gas : Nat) (c : Char) (rest : List Char)
        (line col : Nat) (prev : Option Char) (tokens : List Token)
        (errors : List LexErr),
        matchWHITESPACE (c :: rest) = none →
        matchCOMMENT (c :: rest) = none →
        matchToken stop prev (c :: rest) line col = .ok ([], .noMatch) →
        analyzeGo stop (gas + 1) (c :: rest) line col prev tokens errors =
          analyzeGo stop gas rest line (col + 1) (some c) tokens
            (errors ++ [.unrecognizedChar c line col])) := by
  refine ⟨by decide, ?_, analyzeGo_unrecognized_step⟩
  intro stop l hl
  unfold analyze
  cases l with
  | nil => rfl
  | cons c rest =>
    have hcw : countWhile wsClass (c :: rest) = (c :: rest).length :=
      countWhile_all hl
    have hws : matchWHITESPACE (c :: rest) = some (c :: rest).length := by
      unfold matchWHITESPACE
      rw [hcw]
      simp
    have h1 : skipWhitespace (c :: rest) 1 1 none =
        ([], advLine 1 (c :: rest), advCol 1 (c :: rest),
         lastOr (c :: rest) none) := by
      unfold skipWhitespace
      rw [hws]
      simp [List.take_length, List.drop_length]
    conv_lhs => unfold analyzeGo
    rw [h1]
    dsimp only
    rfl

/-- Witness for the amended C5 at a one-space input and at an
unrecognised control character. -/
theorem C5_whitespace_amended_witness :
    analyze false [' '] =
      .ok ([mkEOF (advLine 1 [' ']) (advCol 1 [' '])], []) ∧
    analyzeGo false 1 ['\u0001'] 1 1 none [] [] =
      analyzeGo false 0 [] 1 2 (some '\u0001') []
        [.unrecognizedChar '\u0001' 1 1] := by
  refine ⟨C5_whitespace_amended.2.1 false [' '] (by decide), ?_⟩
  exact C5_whitespace_amended.2.2 false 0 '\u0001' [] 1 1 none [] []
    (by decide) (by decide) (by decide)

/-- C1 counterexample: the standalone words `or`, `and`, `rem`, `mod`
scan to the reserved kinds OR, AND, REM, MOD, not to the operator kinds
ADDOP/MULOP, because the ID pattern precedes ADDOP and MULOP in the
pattern table and the reserved map captures the lexeme. -/
theorem C1_operator_words_counterexample :
    analyze false (("or").toList) =
      .ok ([mkToken .OR (("or").toList) 1 1 none none, mkEOF 1 3], []) ∧
    analyze false (("and").toList) =
      .ok ([mkToken .AND (("and").toList) 1 1 none none, mkEOF 1 4], []) ∧
    analyze false (("rem").toList) =
      .ok ([mkToken .REM (("rem").toList) 1 1 none none, mkEOF 1 4], []) ∧
    analyze false (("mod").toList) =
      .ok ([mkToken .MOD (("mod").toList) 1 1 none none, mkEOF 1 4], []) ∧
    ¬(TokenType.OR = TokenType.ADDOP) ∧ ¬(TokenType.AND = TokenType.MULOP) ∧
    ¬(TokenType.REM = TokenType.MULOP) ∧ ¬(TokenType.MOD = TokenType.MULOP) := by
  decide

/-- C1 amended: wherever one of the words `or`, `and`, `rem`, `mod`
stands at the cursor as a standalone word (the following character, if
any, does not extend an identifier), `_match_token` emits a token with
the reserved kind (OR, AND, REM, MOD) — never the operator kind — because
the ID pattern precedes ADDOP and MULOP in the pattern table and the
reserved map captures the lexeme. -/
theorem C1_operator_words_amended :
    ∀ (stop : Bool) (prev : Option Char) (rest : List Char) (line col : Nat),
      (∀ c, rest.head? = some c → isIdChar c = false) →
      matchToken stop prev ('o' :: 'r' :: rest) line col =
        .ok ([], .tokRes (mkToken .OR ['o', 'r'] line col none none)
          2 line (col + 2)) ∧
      matchToken stop prev ('a' :: 'n' :: 'd' :: rest) line col =
        .ok ([], .tokRes (mkToken .AND ['a', 'n', 'd'] line col none none)
          3 line (col + 3)) ∧
      matchToken stop prev ('r' :: 'e' :: 'm' :: rest) line col =
        .ok ([], .tokRes (mkToken .REM ['r', 'e', 'm'] line col none none)
          3 line (col + 3)) ∧
      matchToken stop prev ('m' :: 'o' :: 'd' :: rest) line col =
        .ok ([], .tokRes (mkToken .MOD ['m', 'o', 'd'] line col none none)
          3 line (col + 3)) := by
  intro stop prev rest line col hb
  have hcw : countWhile isIdChar rest = 0 := by
    cases rest with
    | nil => rfl
    | cons c r =>
      have := hb c rfl
      simp [countWhile, this]
  refine ⟨?_, ?_, ?_, ?_⟩ <;>
  · unfold matchToken
    dsimp only
    simp only [matchID, countWhile, hcw]
    norm_num
    rfl

/-- Witness for the amended C1 with nothing following the words. -/
theorem C1_operator_words_amended_witness :
    matchToken false none ['o', 'r'] 1 1 =
      .ok ([], .tokRes (mkToken .OR ['o', 'r'] 1 1 none none) 2 1 3) ∧
    matchToken false none ['a', 'n', 'd'] 1 1 =
      .ok ([], .tokRes (mkToken .AND ['a', 'n', 'd'] 1 1 none none) 3 1 4) ∧
    matchToken false none ['r', 'e', 'm'] 1 1 =
      .ok ([], .tokRes (mkToken .REM ['r', 'e', 'm'] 1 1 none none) 3 1 4) ∧
    matchToken false none ['m', 'o', 'd'] 1 1 =
      .ok ([], .tokRes (mkToken .MOD ['m', 'o', 'd'] 1 1 none none) 3 1 4) :=
  C1_operator_words_amended false none [] 1 1 (by intro c h; cases h)

/-- C4: with `stop_on_error`, the error paths of step 6 raise — an
invalid number in `_process_num`, an invalid real in `_process_real`, and
an unterminated literal in `_process_literal` — while step 5 (the
unterminated-string lookahead) and step 8 (the unrecognised-character
case) record their error and continue scanning without raising,
regardless of `stop_on_error`. -/
theorem C4_halt_policy :
    (∀ (lexeme : List Char) (line col : Nat), pyIntParse lexeme = none →
        processNum true lexeme line col =
          .error (.invalidNumber lexeme line col)) ∧
    (∀ (lexeme : List Char) (line col : Nat), pyFloatParse lexeme = none →
        processReal true lexeme line col =
          .error (.invalidReal lexeme line col)) ∧
    (∀ (lexeme : List Char) (line col : Nat),
        ¬(lexeme.getLast? = some '"') →
        processLiteral true lexeme line col =
          .error (.unterminatedString line col)) ∧
    (∀ (stop : Bool) (prev : Option Char) (rem : List Char)
        (line col k nl nc : Nat),
        litGuard rem line col = some (k, nl, nc) →
        matchToken stop prev rem line col =
          .ok ([.unterminatedString line col], .skipRes k nl nc)) ∧
    (∀ (stop : Bool) (gas : Nat) (c : Char) (rest : List Char)
        (line col : Nat) (prev : Option Char) (tokens : List Token)
        (errors : List LexErr),
        matchWHITESPACE (c :: rest) = none →
        matchCOMMENT (c :: rest) = none →
        matchToken stop prev (c :: rest) line col = .ok ([], .noMatch) →
        analyzeGo stop (gas + 1) (c :: rest) line col prev tokens errors =
          analyzeGo stop gas rest line (col + 1) (some c) tokens
            (errors ++ [.unrecognizedChar c line col])) := by
  refine ⟨?_, ?_, ?_, ?_, analyzeGo_unrecognized_step⟩
  · intro lexeme line col h
    unfold processNum
    rw [h]
    rfl
  · intro lexeme line col h
    unfold processReal
    rw [h]
    rfl
  · intro lexeme line col h
    unfold processLiteral
    simp [h]
  · intro stop prev rem line col k nl nc h
    have hrem : ∃ r, rem = '"' :: r := by
      cases rem with
      | nil => simp [litGuard] at h
      | cons c r =>
        by_cases hq : c = '"'
        · exact ⟨r, by rw [hq]⟩
        · exfalso
          unfold litGuard at h
          dsimp only at h
          rw [if_neg hq] at h
          cases h
    obtain ⟨r, rfl⟩ := hrem
    unfold matchToken
    dsimp only
    rw [h]
    rfl

/-- Witness for C4: a non-numeric lexeme raises in the numeric
processors, a lexeme without closing quote raises in the literal
processor, while the unterminated-string lookahead and the
unrecognised-character path recover. -/
theorem C4_halt_policy_witness :
    processNum true ['a'] 1 1 = .error (.invalidNumber ['a'] 1 1) ∧
    processReal true ['a'] 1 1 = .error (.invalidReal ['a'] 1 1) ∧
    processLiteral true ['x'] 1 1 = .error (.unterminatedString 1 1) ∧
    matchToken true none ['"', 'a'] 1 1 =
      .ok ([.unterminatedString 1 1], .skipRes 2 1 3) ∧
    analyzeGo true 1 ['\u0002'] 1 1 none [] [] =
      analyzeGo true 0 [] 1 2 (some '\u0002') []
        [.unrecognizedChar '\u0002' 1 1] := by
  refine ⟨C4_halt_policy.1 ['a'] 1 1 (by decide),
    C4_halt_policy.2.1 ['a'] 1 1 (by decide),
    C4_halt_policy.2.2.1 ['x'] 1 1 (by decide), ?_, ?_⟩
  · exact C4_halt_policy.2.2.2.1 true none ['"', 'a'] 1 1 2 1 3 (by decide)
  · exact C4_halt_policy.2.2.2.2 true 0 '\u0002' [] 1 1 none [] []
      (by decide) (by decide) (by decide)

theorem pyReplaceQQ_cons {c : Char} {rest : List Char} (h : ¬(c = '"')) :
    pyReplaceQQ (c :: rest) = c :: pyReplaceQQ rest := by
  conv_lhs => rw [pyReplaceQQ.eq_def]
  split
  · next heq =>
    injection heq with h1 _
    exact absurd h1 h
  · next c2 rest2 hexcl heq =>
    injection heq with h1 h2
    rw [h1, h2]
  · next heq => cases heq

theorem doubleQuotes_cons {c : Char} {rest : List Char} (h : ¬(c = '"')) :
    doubleQuotes (c :: rest) = c :: doubleQuotes rest := by
  conv_lhs => rw [doubleQuotes.eq_def]
  split
  · next heq => cases heq
  · next heq =>
    injection heq with h1 _
    exact absurd h1 h
  · next c2 rest2 hexcl heq =>
    injection heq with h1 h2
    rw [h1, h2]

theorem doubleQuotes_pyReplaceQQ {it : List Char} (h : LitItems it) :
    doubleQuotes (pyReplaceQQ it) = it := by
  induction h with
  | nil => rfl
  | chr c rest hq hn _ ih =>
    rw [pyReplaceQQ_cons hq, doubleQuotes_cons hq, ih]
  | pair rest _ ih =>
    have h1 : pyReplaceQQ ('"' :: '"' :: rest) = '"' :: pyReplaceQQ rest := rfl
    rw [h1]
    have h2 : doubleQuotes ('"' :: pyReplaceQQ rest) =
        '"' :: '"' :: doubleQuotes (pyReplaceQQ rest) := rfl
    rw [h2, ih]

/-- C8: decoding a well-formed string-literal lexeme in
`_process_literal` and re-encoding the value (surrounding with quotes,
doubling embedded quotes) reproduces the lexeme exactly. -/
theorem C8_literal_roundtrip :
    ∀ (it : List Char) (stop : Bool) (line col : Nat), LitItems it →
      processLiteral stop ('"' :: (it ++ ['"'])) line col =
        .ok ([], some (.LITERAL, pyReplaceQQ it)) ∧
      pyEncodeLit (pyReplaceQQ it) = '"' :: (it ++ ['"']) := by
  intro it stop line col h
  have hlast : ('"' :: (it ++ ['"'])).getLast? = some '"' := by
    rw [show ('"' :: (it ++ ['"'])) = ('"' :: it) ++ ['"'] by simp]
    exact List.getLast?_concat _
  have hinner : pySliceInner ('"' :: (it ++ ['"'])) = it := by
    unfold pySliceInner
    simp [List.dropLast_concat]
  constructor
  · unfold processLiteral
    rw [hinner]
    simp [hlast]
  · unfold pyEncodeLit
    rw [doubleQuotes_pyReplaceQQ h]

/-- Witness for C8 at the lexeme `"a""b"` (value `a"b`). -/
theorem C8_literal_roundtrip_witness :
    processLiteral false ('"' :: ((("a\"\"b").toList) ++ ['"'])) 1 1 =
      .ok ([], some (.LITERAL, pyReplaceQQ (("a\"\"b").toList))) ∧
    pyEncodeLit (pyReplaceQQ (("a\"\"b").toList)) =
      '"' :: ((("a\"\"b").toList) ++ ['"']) :=
  C8_literal_roundtrip (("a\"\"b").toList) false 1 1
    (by
      refine .chr 'a' _ (by decide) (by decide) ?_
      exact .pair _ (.chr 'b' _ (by decide) (by decide) .nil))

/-! Parser claims. -/

/-- C3 counterexample: with the parser configured with
`panic_mode_recover = true`, a failed match of PROCEDURE against an
LPAREN token records the error and leaves the cursor exactly where it
was, on a non-EOF token — no tokens are consumed towards any
synchronisation point (no call site even provides a synchronisation
set); the separate `panic_recovery` helper, which `match` never invokes,
is what would have moved the cursor to EOF. -/
theorem C3_match_no_consume_counterexample :
    (matchE false .PROCEDURE
        { tokens := [mkToken .LPAREN ['('] 1 1 none none, mkEOF 1 2],
          current_index := 0,
          current_token := mkToken .LPAREN ['('] 1 1 none none,
          errors := [], answers := [], prompts := 0,
          fabricatedEOF := false }).map
      (fun s => (s.current_index, s.current_token.token_type,
                 s.errors.length)) = .ok (0, .LPAREN, 1) ∧
    (panic_recoveryE true []
        { tokens := [mkToken .LPAREN ['('] 1 1 none none, mkEOF 1 2],
          current_index := 0,
          current_token := mkToken .LPAREN ['('] 1 1 none none,
          errors := [], answers := [], prompts := 0,
          fabricatedEOF := false }).current_token.token_type = .EOF := by
  decide

theorem panicGo_post (sync : List TokenType) :
    ∀ (gas : Nat) (s : PState),
      (s.current_index ≤ s.tokens.length ∨
       s.current_token.token_type = TokenType.EOF) →
      s.tokens.length + 2 - s.current_index ≤ gas →
      (panicGo sync gas s).current_token.token_type ∈ sync ∨
      (panicGo sync gas s).current_token.token_type = TokenType.EOF := by
  intro gas
  induction gas with
  | zero =>
    intro s hpre hgas
    rcases hpre with hle | heof
    · omega
    · exact Or.inr heof
  | succ gas ih =>
    intro s hpre hgas
    unfold panicGo
    split
    · next hcond =>
      apply ih
      · rcases hpre with hle | heof
        · by_cases hlt : s.current_index + 1 < s.tokens.length
          · left
            unfold advanceE
            dsimp only
            rw [dif_pos hlt]
            simp
            omega
          · right
            unfold advanceE
            dsimp only
            rw [dif_neg hlt]
            rfl
        · exact absurd heof hcond.2
      · unfold advanceE
        dsimp only
        split
        · simp
          omega
        · simp
          omega
    · next hcond =>
      by_cases hmem : s.current_token.token_type ∈ sync
      · exact Or.inl hmem
      · right
        by_contra heof
        exact hcond ⟨hmem, heof⟩

/-- C3 amended: on a failed match the cursor never advances, for either
setting of `panic_mode_recover` (`match` does not consult the flag and no
call site provides a synchronisation set); the separate `panic_recovery`
method is a no-op when the flag is off and, when the flag is on, consumes
tokens until the current kind is in the given synchronisation set or is
EOF — but no grammar routine invokes it. -/
theorem C3_match_no_consume_amended :
    (∀ (stop : Bool) (expected : TokenType) (s : PState),
      ¬(effectiveKind s.current_token = expected) →
      (∀ s', matchE stop expected s = .ok s' →
        s'.current_index = s.current_index ∧ s'.tokens = s.tokens) ∧
      (∀ s', matchE stop expected s = .error s' →
        s'.current_index = s.current_index ∧ s'.tokens = s.tokens)) ∧
    (∀ (sync : List TokenType) (s : PState),
      panic_recoveryE false sync s = s) ∧
    (∀ (sync : List TokenType) (s : PState),
      s.current_index ≤ s.tokens.length →
      (panic_recoveryE true sync s).current_token.token_type ∈ sync ∨
      (panic_recoveryE true sync s).current_token.token_type =
        TokenType.EOF) := by
  refine ⟨?_, ?_, ?_⟩
  · intro stop expected s hne
    constructor
    · intro s' h
      unfold matchE at h
      rw [if_neg hne] at h
      unfold report_errorE at h
      dsimp only at h
      split at h
      · split at h
        · cases h
        · injection h with h
          rw [← h]
          exact ⟨rfl, rfl⟩
      · injection h with h
        rw [← h]
        exact ⟨rfl, rfl⟩
    · intro s' h
      unfold matchE at h
      rw [if_neg hne] at h
      unfold report_errorE at h
      dsimp only at h
      split at h
      · split at h
        · injection h with h
          rw [← h]
          exact ⟨rfl, rfl⟩
        · cases h
      · cases h
  · intro sync s
    rfl
  · intro sync s hle
    unfold panic_recoveryE
    exact panicGo_post sync (s.tokens.length + 2) s (Or.inl hle) (by omega)

/-- Witness for the amended C3: a PROCEDURE match against an EOF-only
parser state fails without moving the cursor, and panic recovery with an
empty synchronisation set stops at EOF. -/
theorem C3_match_no_consume_amended_witness :
    ((∀ s', matchE false .PROCEDURE
        { tokens := [mkEOF 1 1], current_index := 0,
          current_token := mkEOF 1 1, errors := [], answers := [],
          prompts := 0, fabricatedEOF := false } = .ok s' →
        s'.current_index = 0 ∧ s'.tokens = [mkEOF 1 1]) ∧
     (∀ s', matchE false .PROCEDURE
        { tokens := [mkEOF 1 1], current_index := 0,
          current_token := mkEOF 1 1, errors := [], answers := [],
          prompts := 0, fabricatedEOF := false } = .error s' →
        s'.current_index = 0 ∧ s'.tokens = [mkEOF 1 1])) ∧
    ((panic_recoveryE true []
        { tokens := [mkEOF 1 1], current_index := 0,
          current_token := mkEOF 1 1, errors := [], answers := [],
          prompts := 0, fabricatedEOF := false }).current_token.token_type ∈
        ([] : List TokenType) ∨
     (panic_recoveryE true []
        { tokens := [mkEOF 1 1], current_index := 0,
          current_token := mkEOF 1 1, errors := [], answers := [],
          prompts := 0, fabricatedEOF := false }).current_token.token_type =
        TokenType.EOF) := by
  constructor
  · exact C3_match_no_consume_amended.1 false .PROCEDURE
      { tokens := [mkEOF 1 1], current_index := 0,
        current_token := mkEOF 1 1, errors := [], answers := [],
        prompts := 0, fabricatedEOF := false } (by decide)
  · exact C3_match_no_consume_amended.2.2 []
      { tokens := [mkEOF 1 1], current_index := 0,
        current_token := mkEOF 1 1, errors := [], answers := [],
        prompts := 0, fabricatedEOF := false } (by decide)

/-- C2 counterexample: a parser constructed with `stop_on_error = true`,
run on a bare EOF token with the user declining every prompt, returns
normally (no exception) after accumulating seven errors and seven
prompts — the first recorded error neither raises nor stops parsing. -/
theorem C2_stop_on_error_counterexample :
    (match parseRun true false false 20 [mkEOF 1 1] [] with
     | some (.ok (s, b, _)) => (s.errors.length, s.prompts, b)
     | _ => (0, 0, true)) = (7, 7, false) := by
  decide

theorem report_errorE_answers_nil {stop : Bool} {m : PMsg} {s : PState}
    (h : s.answers = []) :
    ∃ s1, report_errorE stop m s = .ok s1 ∧ s1.answers = [] := by
  unfold report_errorE
  dsimp only
  cases stop with
  | false => exact ⟨_, rfl, h⟩
  | true =>
    rw [show ({ s with errors := s.errors ++
        [{ line := s.current_token.line_number,
           col := s.current_token.column_number, msg := m }] } :
        PState).answers.getD s.prompts false = false by simp [h]]
    exact ⟨_, rfl, h⟩

theorem advanceE_answers (s : PState) : (advanceE s).answers = s.answers := by
  unfold advanceE
  dsimp only
  split <;> rfl

theorem matchE_answers_nil {stop : Bool} {e : TokenType} {s : PState}
    (h : s.answers = []) :
    ∃ s1, matchE stop e s = .ok s1 ∧ s1.answers = [] := by
  unfold matchE
  split
  · exact ⟨_, rfl, by rw [advanceE_answers]; exact h⟩
  · exact report_errorE_answers_nil h

theorem match_leafE_answers_nil {stop : Bool} {e : TokenType} {s : PState}
    (h : s.answers = []) :
    ∃ s1 l, match_leafE stop e s = .ok (s1, l) ∧ s1.answers = [] := by
  unfold match_leafE
  split
  · exact ⟨_, _, rfl, by rw [advanceE_answers]; exact h⟩
  · obtain ⟨s1, h1, ha⟩ :=
      @report_errorE_answers_nil stop (.expectedFound e s.current_token.lexeme) _ h
    rw [h1]
    exact ⟨_, _, rfl, ha⟩

theorem parseValueE_answers_nil {stop tree : Bool} {s : PState}
    (h : s.answers = []) :
    ∃ s1 n, parseValueE stop tree s = .ok (s1, n) ∧ s1.answers = [] := by
  unfold parseValueE
  obtain ⟨s1, l1, h1, ha1⟩ := @match_leafE_answers_nil stop .NUM _ h
  simp only [h1]
  exact ⟨_, _, rfl, ha1⟩

theorem parseTypeMarkE_answers_nil {stop tree : Bool} {s : PState}
    (h : s.answers = []) :
    ∃ s1 n, parseTypeMarkE stop tree s = .ok (s1, n) ∧ s1.answers = [] := by
  unfold parseTypeMarkE
  dsimp only
  split
  · obtain ⟨s1, l1, h1, ha1⟩ :=
      @match_leafE_answers_nil stop s.current_token.token_type _ h
    simp only [h1]
    exact ⟨_, _, rfl, ha1⟩
  · split
    · obtain ⟨s1, l1, h1, ha1⟩ := @match_leafE_answers_nil stop .CONSTANT _ h
      simp only [h1]
      obtain ⟨s2, l2, h2, ha2⟩ := @match_leafE_answers_nil stop .ASSIGN _ ha1
      simp only [h2]
      obtain ⟨s3, n3, h3, ha3⟩ := @parseValueE_answers_nil stop tree _ ha2
      simp only [h3]
      exact ⟨_, _, rfl, ha3⟩
    · obtain ⟨s1, h1, ha1⟩ :=
        @report_errorE_answers_nil stop .expectedTypeMark _ h
      simp only [h1]
      exact ⟨_, _, rfl, ha1⟩

theorem parseModeE_answers_nil {stop tree : Bool} {s : PState}
    (h : s.answers = []) :
    ∃ s1 n, parseModeE stop tree s = .ok (s1, n) ∧ s1.answers = [] := by
  unfold parseModeE
  dsimp only
  split
  · obtain ⟨s1, l1, h1, ha1⟩ :=
      @match_leafE_answers_nil stop s.current_token.token_type _ h
    simp only [h1]
    exact ⟨_, _, rfl, ha1⟩
  · exact ⟨_, _, rfl, h⟩

theorem parseSeqOfStatementsE_answers_nil {tree : Bool} {s : PState}
    (h : s.answers = []) :
    ∃ s1 n, parseSeqOfStatementsE tree s = .ok (s1, n) ∧ s1.answers = [] := by
  unfold parseSeqOfStatementsE
  exact ⟨_, _, rfl, h⟩

theorem parseStep_answers_nil {stop tree : Bool} :
    ∀ (fuel : Nat) (nt : NT) (s : PState), s.answers = [] →
      ∃ s1 n, parseStep stop tree fuel nt s = .ok (s1, n) ∧
        s1.answers = [] := by
  intro fuel
  induction fuel with
  | zero => intro nt s h; exact ⟨_, _, rfl, h⟩
  | succ fuel ih =>
    intro nt s h
    cases nt with
    | prog =>
      unfold parseStep
      dsimp only
      split
      · obtain ⟨s1, l1, h1, ha1⟩ := @match_leafE_answers_nil stop .PROCEDURE _ h
        simp only [h1]
        obtain ⟨s2, l2, h2, ha2⟩ := @match_leafE_answers_nil stop .ID _ ha1
        simp only [h2]
        obtain ⟨s3, n3, h3, ha3⟩ := ih .args s2 ha2
        simp only [h3]
        obtain ⟨s4, l4, h4, ha4⟩ := @match_leafE_answers_nil stop .IS _ ha3
        simp only [h4]
        obtain ⟨s5, n5, h5, ha5⟩ := ih .declPart s4 ha4
        simp only [h5]
        obtain ⟨s6, n6, h6, ha6⟩ := ih .procedures s5 ha5
        simp only [h6]
        obtain ⟨s7, l7, h7, ha7⟩ := @match_leafE_answers_nil stop .BEGIN _ ha6
        simp only [h7]
        obtain ⟨s8, n8, h8, ha8⟩ :=
          @parseSeqOfStatementsE_answers_nil tree _ ha7
        simp only [h8]
        obtain ⟨s9, l9, h9, ha9⟩ := @match_leafE_answers_nil stop .END _ ha8
        simp only [h9]
        obtain ⟨s10, l10, h10, ha10⟩ := @match_leafE_answers_nil stop .ID _ ha9
        simp only [h10]
        obtain ⟨s11, l11, h11, ha11⟩ :=
          @match_leafE_answers_nil stop .SEMICOLON _ ha10
        simp only [h11]
        exact ⟨_, _, rfl, ha11⟩
      · obtain ⟨s1, h1, ha1⟩ := @matchE_answers_nil stop .PROCEDURE _ h
        simp only [h1]
        obtain ⟨s2, h2, ha2⟩ := @matchE_answers_nil stop .ID _ ha1
        simp only [h2]
        obtain ⟨s3, n3, h3, ha3⟩ := ih .args s2 ha2
        simp only [h3]
        obtain ⟨s4, h4, ha4⟩ := @matchE_answers_nil stop .IS _ ha3
        simp only [h4]
        obtain ⟨s5, n5, h5, ha5⟩ := ih .declPart s4 ha4
        simp only [h5]
        obtain ⟨s6, n6, h6, ha6⟩ := ih .procedures s5 ha5
        simp only [h6]
        obtain ⟨s7, h7, ha7⟩ := @matchE_answers_nil stop .BEGIN _ ha6
        simp only [h7]
        obtain ⟨s8, n8, h8, ha8⟩ :=
          @parseSeqOfStatementsE_answers_nil tree _ ha7
        simp only [h8]
        obtain ⟨s9, h9, ha9⟩ := @matchE_answers_nil stop .END _ ha8
        simp only [h9]
        obtain ⟨s10, h10, ha10⟩ := @matchE_answers_nil stop .ID _ ha9
        simp only [h10]
        obtain ⟨s11, h11, ha11⟩ := @matchE_answers_nil stop .SEMICOLON _ ha10
        simp only [h11]
        exact ⟨_, _, rfl, ha11⟩
    | declPart =>
      unfold parseStep
      dsimp only
      split
      · obtain ⟨s1, n1, h1, ha1⟩ := ih .idList s h
        simp only [h1]
        obtain ⟨s2, l2, h2, ha2⟩ := @match_leafE_answers_nil stop .COLON _ ha1
        simp only [h2]
        obtain ⟨s3, n3, h3, ha3⟩ := @parseTypeMarkE_answers_nil stop tree _ ha2
        simp only [h3]
        obtain ⟨s4, l4, h4, ha4⟩ :=
          @match_leafE_answers_nil stop .SEMICOLON _ ha3
        simp only [h4]
        obtain ⟨s5, n5, h5, ha5⟩ := ih .declPart s4 ha4
        simp only [h5]
        exact ⟨_, _, rfl, ha5⟩
      · split
        · exact ⟨_, _, rfl, h⟩
        · exact ⟨_, _, rfl, h⟩
    | idList =>
      unfold parseStep
      dsimp only
      obtain ⟨s1, l1, h1, ha1⟩ := @match_leafE_answers_nil stop .ID _ h
      simp only [h1]
      exact ih _ s1 ha1
    | idLoop node =>
      unfold parseStep
      dsimp only
      split
      · obtain ⟨s1, l1, h1, ha1⟩ := @match_leafE_answers_nil stop .COMMA _ h
        simp only [h1]
        obtain ⟨s2, l2, h2, ha2⟩ := @match_leafE_answers_nil stop .ID _ ha1
        simp only [h2]
        exact ih _ s2 ha2
      · exact ⟨_, _, rfl, h⟩
    | procedures =>
      unfold parseStep
      dsimp only
      split
      · obtain ⟨s1, n1, h1, ha1⟩ := ih .prog s h
        simp only [h1]
        obtain ⟨s2, n2, h2, ha2⟩ := ih .procedures s1 ha1
        simp only [h2]
        exact ⟨_, _, rfl, ha2⟩
      · split
        · exact ⟨_, _, rfl, h⟩
        · exact ⟨_, _, rfl, h⟩
    | args =>
      unfold parseStep
      dsimp only
      split
      · obtain ⟨s1, l1, h1, ha1⟩ := @match_leafE_answers_nil stop .LPAREN _ h
        simp only [h1]
        obtain ⟨s2, n2, h2, ha2⟩ := ih .argList s1 ha1
        simp only [h2]
        obtain ⟨s3, l3, h3, ha3⟩ := @match_leafE_answers_nil stop .RPAREN _ ha2
        simp only [h3]
        exact ⟨_, _, rfl, ha3⟩
      · split
        · exact ⟨_, _, rfl, h⟩
        · exact ⟨_, _, rfl, h⟩
    | argList =>
      unfold parseStep
      dsimp only
      obtain ⟨s1, n1, h1, ha1⟩ := @parseModeE_answers_nil stop tree _ h
      simp only [h1]
      obtain ⟨s2, n2, h2, ha2⟩ := ih .idList s1 ha1
      simp only [h2]
      obtain ⟨s3, l3, h3, ha3⟩ := @match_leafE_answers_nil stop .COLON _ ha2
      simp only [h3]
      obtain ⟨s4, n4, h4, ha4⟩ := @parseTypeMarkE_answers_nil stop tree _ ha3
      simp only [h4]
      obtain ⟨s5, n5, h5, ha5⟩ := ih .moreArgs s4 ha4
      simp only [h5]
      exact ⟨_, _, rfl, ha5⟩
    | moreArgs =>
      unfold parseStep
      dsimp only
      split
      · obtain ⟨s1, l1, h1, ha1⟩ :=
          @match_leafE_answers_nil stop .SEMICOLON _ h
        simp only [h1]
        obtain ⟨s2, n2, h2, ha2⟩ := ih .argList s1 ha1
        simp only [h2]
        exact ⟨_, _, rfl, ha2⟩
      · split
        · exact ⟨_, _, rfl, h⟩
        · exact ⟨_, _, rfl, h⟩

theorem parseE_answers_nil {stop panic tree : Bool} {fuel : Nat} {s : PState}
    (h : s.answers = []) :
    ∃ s1 b n, parseE stop panic tree fuel s = .ok (s1, (b, n)) ∧
      s1.answers = [] := by
  unfold parseE parseProgE
  obtain ⟨s1, n1, h1, ha1⟩ :=
    @parseStep_answers_nil stop tree fuel .prog s h
  simp only [h1]
  split
  · obtain ⟨s2, h2, ha2⟩ :=
      @report_errorE_answers_nil stop .extraTokens _ ha1
    simp only [h2]
    exact ⟨_, _, _, rfl, ha2⟩
  · exact ⟨_, _, _, rfl, ha1⟩

/-- C2 amended: recording an error never raises by itself.  With
`stop_on_error` false the error is appended and parsing continues; with
`stop_on_error` true every recorded error prompts the user, a negative
reply (the default when the answer stream is exhausted) lets parsing
continue and accumulate errors, and only an affirmative reply raises the
generic halting exception — immediately after the first error so
recorded. -/
theorem C2_stop_on_error_amended :
    (∀ (m : PMsg) (s : PState), report_errorE false m s =
        .ok { s with errors := s.errors ++
          [{ line := s.current_token.line_number,
             col := s.current_token.column_number, msg := m }] }) ∧
    (∀ (m : PMsg) (s : PState), s.answers.getD s.prompts false = true →
        report_errorE true m s =
        .error { s with
          errors := s.errors ++
            [{ line := s.current_token.line_number,
               col := s.current_token.column_number, msg := m }]
          prompts := s.prompts + 1 }) ∧
    (∀ (m : PMsg) (s : PState), s.answers.getD s.prompts false = false →
        report_errorE true m s =
        .ok { s with
          errors := s.errors ++
            [{ line := s.current_token.line_number,
               col := s.current_token.column_number, msg := m }]
          prompts := s.prompts + 1 }) ∧
    (∀ (panic tree : Bool) (fuel : Nat) (s : PState), s.answers = [] →
        ∃ s1 b n, parseE true panic tree fuel s = .ok (s1, (b, n))) ∧
    ((parseRun true false false 20 [mkEOF 1 1] [true]).map
        (fun r => match r with
          | .error s => (true, s.errors.length, s.prompts)
          | .ok _ => (false, 0, 0)) = some (true, 1, 1)) := by
  refine ⟨?_, ?_, ?_, ?_, ?_⟩
  · intro m s
    rfl
  · intro m s h
    unfold report_errorE
    dsimp only
    rw [h]
    rfl
  · intro m s h
    unfold report_errorE
    dsimp only
    rw [h]
    rfl
  · intro panic tree fuel s h
    obtain ⟨s1, b, n, h1, -⟩ := @parseE_answers_nil _ panic _ _ _ h
    exact ⟨s1, b, n, h1⟩
  · decide

/-- Witness for the amended C2: an affirmative first answer raises at the
first recorded error; an exhausted answer stream parses to completion. -/
theorem C2_stop_on_error_amended_witness :
    report_errorE false .extraTokens
      { tokens := [mkEOF 1 1], current_index := 0,
        current_token := mkEOF 1 1, errors := [], answers := [],
        prompts := 0, fabricatedEOF := false } =
      .ok { tokens := [mkEOF 1 1], current_index := 0,
            current_token := mkEOF 1 1,
            errors := [{ line := 1, col := 1, msg := .extraTokens }],
            answers := [], prompts := 0, fabricatedEOF := false } ∧
    report_errorE true .extraTokens
      { tokens := [mkEOF 1 1], current_index := 0,
        current_token := mkEOF 1 1, errors := [], answers := [true],
        prompts := 0, fabricatedEOF := false } =
      .error { tokens := [mkEOF 1 1], current_index := 0,
               current_token := mkEOF 1 1,
               errors := [{ line := 1, col := 1, msg := .extraTokens }],
               answers := [true], prompts := 1, fabricatedEOF := false } ∧
    ∃ s1 b n, parseE true false false 20
      { tokens := [mkEOF 1 1], current_index := 0,
        current_token := mkEOF 1 1, errors := [], answers := [],
        prompts := 0, fabricatedEOF := false } = .ok (s1, (b, n)) := by
  refine ⟨?_, ?_, ?_⟩
  · have h := C2_stop_on_error_amended.1 .extraTokens
      { tokens := [mkEOF 1 1], current_index := 0,
        current_token := mkEOF 1 1, errors := [], answers := [],
        prompts := 0, fabricatedEOF := false }
    simpa using h
  · have h := C2_stop_on_error_amended.2.1 .extraTokens
      { tokens := [mkEOF 1 1], current_index := 0,
        current_token := mkEOF 1 1, errors := [], answers := [true],
        prompts := 0, fabricatedEOF := false } (by decide)
    simpa using h
  · exact C2_stop_on_error_amended.2.2.2.1 false false 20
      { tokens := [mkEOF 1 1], current_index := 0,
        current_token := mkEOF 1 1, errors := [], answers := [],
        prompts := 0, fabricatedEOF := false } rfl

theorem stP_match_leafE (stop : Bool) (e : TokenType) (s : PState) :
    stP (match_leafE stop e s) = matchE stop e s := by
  unfold stP match_leafE matchE
  split
  · rfl
  · cases h : report_errorE stop (.expectedFound e s.current_token.lexeme) s with
    | error s' => simp only [h]; rfl
    | ok s' => simp only [h]; rfl

theorem stP_eq_error {α : Type} {x : Except PState (PState × α)} {s : PState} :
    stP x = .error s ↔ x = .error s := by
  cases x with
  | error e =>
    constructor
    · intro h
      have h1 : e = s := Except.error.inj h
      rw [h1]
    · intro h
      have h1 : e = s := Except.error.inj h
      show Except.error e = Except.error s
      rw [h1]
  | ok p =>
    constructor
    · intro h
      exact Except.noConfusion h
    · intro h
      exact Except.noConfusion h

theorem stP_eq_ok {α : Type} {x : Except PState (PState × α)} {s : PState} :
    stP x = .ok s ↔ ∃ a, x = .ok (s, a) := by
  cases x with
  | error e =>
    constructor
    · intro h
      exact Except.noConfusion h
    · rintro ⟨a, ha⟩
      exact Except.noConfusion ha
  | ok p =>
    obtain ⟨s1, a⟩ := p
    constructor
    · intro h
      have h1 : s1 = s := Except.ok.inj h
      exact ⟨a, by rw [h1]⟩
    · rintro ⟨a', ha'⟩
      have h1 : s1 = s := (Prod.mk.inj (Except.ok.inj ha')).1
      show Except.ok s1 = Except.ok s
      rw [h1]

theorem stP_parseValueE (stop tree : Bool) (s : PState) :
    stP (parseValueE stop tree s) = matchE stop .NUM s := by
  unfold parseValueE
  cases h : match_leafE stop .NUM s with
  | error s' =>
    have h' := stP_match_leafE stop .NUM s
    rw [h] at h'
    simp only [h]
    exact h'
  | ok p =>
    obtain ⟨s1, l⟩ := p
    have h' := stP_match_leafE stop .NUM s
    rw [h] at h'
    simp only [h]
    exact h'

theorem stP_parseSeqOfStatementsE (tree : Bool) (s : PState) :
    stP (parseSeqOfStatementsE tree s) = .ok s := rfl

theorem stP_parseModeE (stop tree tree' : Bool) (s : PState) :
    stP (parseModeE stop tree s) = stP (parseModeE stop tree' s) := by
  unfold parseModeE
  dsimp only
  by_cases hk : s.current_token.token_type = TokenType.IN ∨
      s.current_token.token_type = TokenType.OUT ∨
      s.current_token.token_type = TokenType.INOUT
  · simp only [if_pos hk]
    cases h : match_leafE stop s.current_token.token_type s with
    | error s' => simp only [h]
    | ok p =>
      obtain ⟨s1, l⟩ := p
      simp only [h]
      rfl
  · simp only [if_neg hk]
    rfl

theorem stP_parseTypeMarkE (stop tree tree' : Bool) (s : PState) :
    stP (parseTypeMarkE stop tree s) = stP (parseTypeMarkE stop tree' s) := by
  unfold parseTypeMarkE
  dsimp only
  by_cases h1 : s.current_token.token_type = TokenType.INTEGERT ∨
      s.current_token.token_type = TokenType.REALT ∨
      s.current_token.token_type = TokenType.CHART
  · simp only [if_pos h1]
    cases h : match_leafE stop s.current_token.token_type s with
    | error s' => simp only [h]
    | ok p =>
      obtain ⟨s1, l⟩ := p
      simp only [h]
      rfl
  · simp only [if_neg h1]
    by_cases h2 : s.current_token.token_type = TokenType.CONSTANT
    · simp only [if_pos h2]
      cases ha : match_leafE stop .CONSTANT s with
      | error s' => simp only [ha]
      | ok p =>
        obtain ⟨s1, l1⟩ := p
        simp only [ha]
        cases hb : match_leafE stop .ASSIGN s1 with
        | error s' => simp only [hb]
        | ok p2 =>
          obtain ⟨s2, l2⟩ := p2
          simp only [hb]
          have hv := stP_parseValueE stop tree s2
          have hv' := stP_parseValueE stop tree' s2
          cases hc : parseValueE stop tree s2 with
          | error s' =>
            have : parseValueE stop tree' s2 = .error s' := by
              rw [← stP_eq_error]
              rw [hv']
              rw [← hv]
              rw [hc]
              rfl
            simp only [hc, this]
          | ok p3 =>
            obtain ⟨s3, c⟩ := p3
            have : ∃ a, parseValueE stop tree' s2 = .ok (s3, a) := by
              rw [← stP_eq_ok]
              rw [hv']
              rw [← hv]
              rw [hc]
              rfl
            obtain ⟨c', hd⟩ := this
            simp only [hc, hd]
            rfl
    · simp only [if_neg h2]
      cases h : report_errorE stop .expectedTypeMark s with
      | error s' => simp only [h]
      | ok s' => simp only [h]; rfl

theorem parseStep_stP :
    ∀ (fuel : Nat) (stop tree tree' : Bool) (nt nt' : NT),
      NT.sameCase nt nt' → ∀ s,
      stP (parseStep stop tree fuel nt s) =
      stP (parseStep stop tree' fuel nt' s) := by
  intro fuel
  induction fuel with
  | zero =>
    intro stop tree tree' nt nt' hsame s
    rfl
  | succ fuel ih =>
    intro stop tree tree' nt nt' hsame s
    cases nt <;> cases nt' <;> try exact (hsame : False).elim
    case prog.prog =>
      have hmix : ∀ sM, stP (parseStep stop true (fuel + 1) .prog sM) =
          stP (parseStep stop false (fuel + 1) .prog sM) := by
        intro sM
        unfold parseStep
        dsimp only
        cases h1 : match_leafE stop .PROCEDURE sM with
        | error s' =>
          have h1' : matchE stop .PROCEDURE sM = .error s' := by
            rw [← stP_match_leafE, h1]; rfl
          simp only [h1, h1']
          rfl
        | ok p1 =>
          obtain ⟨s1, l1⟩ := p1
          have h1' : matchE stop .PROCEDURE sM = .ok s1 := by
            rw [← stP_match_leafE, h1]; rfl
          simp only [h1, h1']
          cases h2 : match_leafE stop .ID s1 with
          | error s' =>
            have h2' : matchE stop .ID s1 = .error s' := by
              rw [← stP_match_leafE, h2]; rfl
            simp only [h2, h2']
            rfl
          | ok p2 =>
            obtain ⟨s2, l2⟩ := p2
            have h2' : matchE stop .ID s1 = .ok s2 := by
              rw [← stP_match_leafE, h2]; rfl
            simp only [h2, h2']
            have hR3 := ih stop true false .args .args (by trivial) s2
            cases h3 : parseStep stop true fuel .args s2 with
            | error sa =>
              have h3' : parseStep stop false fuel .args s2 = .error sa := by
                rw [← stP_eq_error, ← hR3, h3]; rfl
              simp only [h3, h3']
              rfl
            | ok p3 =>
              obtain ⟨s3, n3⟩ := p3
              obtain ⟨n3', h3'⟩ : ∃ a,
                  parseStep stop false fuel .args s2 = .ok (s3, a) := by
                rw [← stP_eq_ok, ← hR3, h3]; rfl
              simp only [h3, h3']
              cases h4 : match_leafE stop .IS s3 with
              | error s' =>
                have h4' : matchE stop .IS s3 = .error s' := by
                  rw [← stP_match_leafE, h4]; rfl
                simp only [h4, h4']
                rfl
              | ok p4 =>
                obtain ⟨s4, l4⟩ := p4
                have h4' : matchE stop .IS s3 = .ok s4 := by
                  rw [← stP_match_leafE, h4]; rfl
                simp only [h4, h4']
                have hR5 := ih stop true false .declPart .declPart (by trivial) s4
                cases h5 : parseStep stop true fuel .declPart s4 with
                | error sa =>
                  have h5' : parseStep stop false fuel .declPart s4 = .error sa := by
                    rw [← stP_eq_error, ← hR5, h5]; rfl
                  simp only [h5, h5']
                  rfl
                | ok p5 =>
                  obtain ⟨s5, n5⟩ := p5
                  obtain ⟨n5', h5'⟩ : ∃ a,
                      parseStep stop false fuel .declPart s4 = .ok (s5, a) := by
                    rw [← stP_eq_ok, ← hR5, h5]; rfl
                  simp only [h5, h5']
                  have hR6 := ih stop true false .procedures .procedures (by trivial) s5
                  cases h6 : parseStep stop true fuel .procedures s5 with
                  | error sa =>
                    have h6' : parseStep stop false fuel .procedures s5 = .error sa := by
                      rw [← stP_eq_error, ← hR6, h6]; rfl
                    simp only [h6, h6']
                    rfl
                  | ok p6 =>
                    obtain ⟨s6, n6⟩ := p6
                    obtain ⟨n6', h6'⟩ : ∃ a,
                        parseStep stop false fuel .procedures s5 = .ok (s6, a) := by
                      rw [← stP_eq_ok, ← hR6, h6]; rfl
                    simp only [h6, h6']
                    cases h7 : match_leafE stop .BEGIN s6 with
                    | error s' =>
                      have h7' : matchE stop .BEGIN s6 = .error s' := by
                        rw [← stP_match_leafE, h7]; rfl
                      simp only [h7, h7']
                      rfl
                    | ok p7 =>
                      obtain ⟨s7, l7⟩ := p7
                      have h7' : matchE stop .BEGIN s6 = .ok s7 := by
                        rw [← stP_match_leafE, h7]; rfl
                      simp only [h7, h7']
                      obtain ⟨n8, h8⟩ : ∃ n,
                          parseSeqOfStatementsE true s7 = .ok (s7, n) := ⟨_, rfl⟩
                      obtain ⟨n8', h8'⟩ : ∃ n,
                          parseSeqOfStatementsE false s7 = .ok (s7, n) := ⟨_, rfl⟩
                      simp only [h8, h8']
                      cases h9 : match_leafE stop .END s7 with
                      | error s' =>
                        have h9' : matchE stop .END s7 = .error s' := by
                          rw [← stP_match_leafE, h9]; rfl
                        simp only [h9, h9']
                        rfl
                      | ok p9 =>
                        obtain ⟨s9, l9⟩ := p9
                        have h9' : matchE stop .END s7 = .ok s9 := by
                          rw [← stP_match_leafE, h9]; rfl
                        simp only [h9, h9']
                        cases h10 : match_leafE stop .ID s9 with
                        | error s' =>
                          have h10' : matchE stop .ID s9 = .error s' := by
                            rw [← stP_match_leafE, h10]; rfl
                          simp only [h10, h10']
                          rfl
                        | ok p10 =>
                          obtain ⟨s10, l10⟩ := p10
                          have h10' : matchE stop .ID s9 = .ok s10 := by
                            rw [← stP_match_leafE, h10]; rfl
                          simp only [h10, h10']
                          cases h11 : match_leafE stop .SEMICOLON s10 with
                          | error s' =>
                            have h11' : matchE stop .SEMICOLON s10 = .error s' := by
                              rw [← stP_match_leafE, h11]; rfl
                            simp only [h11, h11']
                            rfl
                          | ok p11 =>
                            obtain ⟨s11, l11⟩ := p11
                            have h11' : matchE stop .SEMICOLON s10 = .ok s11 := by
                              rw [← stP_match_leafE, h11]; rfl
                            simp only [h11, h11']
                            rfl
      cases tree <;> cases tree'
      · rfl
      · exact (hmix s).symm
      · exact hmix s
      · rfl
    case declPart.declPart =>
      unfold parseStep
      dsimp only
      by_cases hk : s.current_token.token_type = TokenType.ID
      · simp only [if_pos hk]
        have hR1 := ih stop tree tree' .idList .idList (by trivial) s
        cases h1 : parseStep stop tree fuel .idList s with
        | error sa =>
          have h1' : parseStep stop tree' fuel .idList s = .error sa := by
            rw [← stP_eq_error, ← hR1, h1]; rfl
          simp only [h1, h1']
        | ok p1 =>
          obtain ⟨s1, n1⟩ := p1
          obtain ⟨n1', h1'⟩ : ∃ a,
              parseStep stop tree' fuel .idList s = .ok (s1, a) := by
            rw [← stP_eq_ok, ← hR1, h1]; rfl
          simp only [h1, h1']
          cases h2 : match_leafE stop .COLON s1 with
          | error s' => simp only [h2]
          | ok p2 =>
            obtain ⟨s2, l2⟩ := p2
            simp only [h2]
            have hR3 := stP_parseTypeMarkE stop tree tree' s2
            cases h3 : parseTypeMarkE stop tree s2 with
            | error sa =>
              have h3' : parseTypeMarkE stop tree' s2 = .error sa := by
                rw [← stP_eq_error, ← hR3, h3]; rfl
              simp only [h3, h3']
            | ok p3 =>
              obtain ⟨s3, n3⟩ := p3
              obtain ⟨n3', h3'⟩ : ∃ a,
                  parseTypeMarkE stop tree' s2 = .ok (s3, a) := by
                rw [← stP_eq_ok, ← hR3, h3]; rfl
              simp only [h3, h3']
              cases h4 : match_leafE stop .SEMICOLON s3 with
              | error s' => simp only [h4]
              | ok p4 =>
                obtain ⟨s4, l4⟩ := p4
                simp only [h4]
                have hR5 := ih stop tree tree' .declPart .declPart (by trivial) s4
                cases h5 : parseStep stop tree fuel .declPart s4 with
                | error sa =>
                  have h5' : parseStep stop tree' fuel .declPart s4 = .error sa := by
                    rw [← stP_eq_error, ← hR5, h5]; rfl
                  simp only [h5, h5']
                | ok p5 =>
                  obtain ⟨s5, n5⟩ := p5
                  obtain ⟨n5', h5'⟩ : ∃ a,
                      parseStep stop tree' fuel .declPart s4 = .ok (s5, a) := by
                    rw [← stP_eq_ok, ← hR5, h5]; rfl
                  simp only [h5, h5']
                  rfl
      · simp only [if_neg hk]
        cases tree <;> cases tree' <;> rfl
    case idList.idList =>
      unfold parseStep
      dsimp only
      cases h1 : match_leafE stop .ID s with
      | error s' => simp only [h1]
      | ok p1 =>
        obtain ⟨s1, l1⟩ := p1
        simp only [h1]
        exact ih stop tree tree' (.idLoop _) (.idLoop _) (by trivial) s1
    case idLoop.idLoop node node' =>
      unfold parseStep
      dsimp only
      by_cases hk : s.current_token.token_type = TokenType.COMMA
      · simp only [if_pos hk]
        cases h1 : match_leafE stop .COMMA s with
        | error s' => simp only [h1]
        | ok p1 =>
          obtain ⟨s1, l1⟩ := p1
          simp only [h1]
          cases h2 : match_leafE stop .ID s1 with
          | error s' => simp only [h2]
          | ok p2 =>
            obtain ⟨s2, l2⟩ := p2
            simp only [h2]
            exact ih stop tree tree' (.idLoop _) (.idLoop _) (by trivial) s2
      · simp only [if_neg hk]
        rfl
    case procedures.procedures =>
      unfold parseStep
      dsimp only
      by_cases hk : s.current_token.token_type = TokenType.PROCEDURE
      · simp only [if_pos hk]
        have hR1 := ih stop tree tree' .prog .prog (by trivial) s
        cases h1 : parseStep stop tree fuel .prog s with
        | error sa =>
          have h1' : parseStep stop tree' fuel .prog s = .error sa := by
            rw [← stP_eq_error, ← hR1, h1]; rfl
          simp only [h1, h1']
        | ok p1 =>
          obtain ⟨s1, n1⟩ := p1
          obtain ⟨n1', h1'⟩ : ∃ a,
              parseStep stop tree' fuel .prog s = .ok (s1, a) := by
            rw [← stP_eq_ok, ← hR1, h1]; rfl
          simp only [h1, h1']
          have hR2 := ih stop tree tree' .procedures .procedures (by trivial) s1
          cases h2 : parseStep stop tree fuel .procedures s1 with
          | error sa =>
            have h2' : parseStep stop tree' fuel .procedures s1 = .error sa := by
              rw [← stP_eq_error, ← hR2, h2]; rfl
            simp only [h2, h2']
          | ok p2 =>
            obtain ⟨s2, n2⟩ := p2
            obtain ⟨n2', h2'⟩ : ∃ a,
                parseStep stop tree' fuel .procedures s1 = .ok (s2, a) := by
              rw [← stP_eq_ok, ← hR2, h2]; rfl
            simp only [h2, h2']
            rfl
      · simp only [if_neg hk]
        cases tree <;> cases tree' <;> rfl
    case args.args =>
      unfold parseStep
      dsimp only
      by_cases hk : s.current_token.token_type = TokenType.LPAREN
      · simp only [if_pos hk]
        cases h1 : match_leafE stop .LPAREN s with
        | error s' => simp only [h1]
        | ok p1 =>
          obtain ⟨s1, l1⟩ := p1
          simp only [h1]
          have hR2 := ih stop tree tree' .argList .argList (by trivial) s1
          cases h2 : parseStep stop tree fuel .argList s1 with
          | error sa =>
            have h2' : parseStep stop tree' fuel .argList s1 = .error sa := by
              rw [← stP_eq_error, ← hR2, h2]; rfl
            simp only [h2, h2']
          | ok p2 =>
            obtain ⟨s2, n2⟩ := p2
            obtain ⟨n2', h2'⟩ : ∃ a,
                parseStep stop tree' fuel .argList s1 = .ok (s2, a) := by
              rw [← stP_eq_ok, ← hR2, h2]; rfl
            simp only [h2, h2']
            cases h3 : match_leafE stop .RPAREN s2 with
            | error s' => simp only [h3]
            | ok p3 =>
              obtain ⟨s3, l3⟩ := p3
              simp only [h3]
              rfl
      · simp only [if_neg hk]
        cases tree <;> cases tree' <;> rfl
    case argList.argList =>
      unfold parseStep
      dsimp only
      have hR1 := stP_parseModeE stop tree tree' s
      cases h1 : parseModeE stop tree s with
      | error sa =>
        have h1' : parseModeE stop tree' s = .error sa := by
          rw [← stP_eq_error, ← hR1, h1]; rfl
        simp only [h1, h1']
      | ok p1 =>
        obtain ⟨s1, n1⟩ := p1
        obtain ⟨n1', h1'⟩ : ∃ a, parseModeE stop tree' s = .ok (s1, a) := by
          rw [← stP_eq_ok, ← hR1, h1]; rfl
        simp only [h1, h1']
        have hR2 := ih stop tree tree' .idList .idList (by trivial) s1
        cases h2 : parseStep stop tree fuel .idList s1 with
        | error sa =>
          have h2' : parseStep stop tree' fuel .idList s1 = .error sa := by
            rw [← stP_eq_error, ← hR2, h2]; rfl
          simp only [h2, h2']
        | ok p2 =>
          obtain ⟨s2, n2⟩ := p2
          obtain ⟨n2', h2'⟩ : ∃ a,
              parseStep stop tree' fuel .idList s1 = .ok (s2, a) := by
            rw [← stP_eq_ok, ← hR2, h2]; rfl
          simp only [h2, h2']
          cases h3 : match_leafE stop .COLON s2 with
          | error s' => simp only [h3]
          | ok p3 =>
            obtain ⟨s3, l3⟩ := p3
            simp only [h3]
            have hR4 := stP_parseTypeMarkE stop tree tree' s3
            cases h4 : parseTypeMarkE stop tree s3 with
            | error sa =>
              have h4' : parseTypeMarkE stop tree' s3 = .error sa := by
                rw [← stP_eq_error, ← hR4, h4]; rfl
              simp only [h4, h4']
            | ok p4 =>
              obtain ⟨s4, n4⟩ := p4
              obtain ⟨n4', h4'⟩ : ∃ a,
                  parseTypeMarkE stop tree' s3 = .ok (s4, a) := by
                rw [← stP_eq_ok, ← hR4, h4]; rfl
              simp only [h4, h4']
              have hR5 := ih stop tree tree' .moreArgs .moreArgs (by trivial) s4
              cases h5 : parseStep stop tree fuel .moreArgs s4 with
              | error sa =>
                have h5' : parseStep stop tree' fuel .moreArgs s4 = .error sa := by
                  rw [← stP_eq_error, ← hR5, h5]; rfl
                simp only [h5, h5']
              | ok p5 =>
                obtain ⟨s5, n5⟩ := p5
                obtain ⟨n5', h5'⟩ : ∃ a,
                    parseStep stop tree' fuel .moreArgs s4 = .ok (s5, a) := by
                  rw [← stP_eq_ok, ← hR5, h5]; rfl
                simp only [h5, h5']
                rfl
    case moreArgs.moreArgs =>
      unfold parseStep
      dsimp only
      by_cases hk : s.current_token.token_type = TokenType.SEMICOLON
      · simp only [if_pos hk]
        cases h1 : match_leafE stop .SEMICOLON s with
        | error s' => simp only [h1]
        | ok p1 =>
          obtain ⟨s1, l1⟩ := p1
          simp only [h1]
          have hR2 := ih stop tree tree' .argList .argList (by trivial) s1
          cases h2 : parseStep stop tree fuel .argList s1 with
          | error sa =>
            have h2' : parseStep stop tree' fuel .argList s1 = .error sa := by
              rw [← stP_eq_error, ← hR2, h2]; rfl
            simp only [h2, h2']
          | ok p2 =>
            obtain ⟨s2, n2⟩ := p2
            obtain ⟨n2', h2'⟩ : ∃ a,
                parseStep stop tree' fuel .argList s1 = .ok (s2, a) := by
              rw [← stP_eq_ok, ← hR2, h2]; rfl
            simp only [h2, h2']
            rfl
      · simp only [if_neg hk]
        cases tree <;> cases tree' <;> rfl

/-- C9: for every token list, answer stream and fixed `stop_on_error` and
`panic_mode_recover`, running the parser with `build_parse_tree` true and
false produces identical final states (hence identical error lists, in
order) and the identical boolean result of `parse`; only the returned
tree differs. -/
theorem C9_tree_flag_equivalence :
    ∀ (stop panic : Bool) (fuel : Nat) (tokens : List Token)
      (answers : List Bool),
      (parseRun stop panic true fuel tokens answers).map obsP =
      (parseRun stop panic false fuel tokens answers).map obsP := by
  intro stop panic fuel tokens answers
  unfold parseRun initState
  cases tokens with
  | nil => rfl
  | cons t ts =>
    dsimp only [Option.map]
    congr 1
    unfold obsP parseE parseProgE
    have hR := parseStep_stP fuel stop true false .prog .prog (by trivial)
      { tokens := t :: ts, current_index := 0, current_token := t,
        errors := [], answers := answers, prompts := 0,
        fabricatedEOF := false }
    cases h1 : parseStep stop true fuel .prog
        { tokens := t :: ts, current_index := 0, current_token := t,
          errors := [], answers := answers, prompts := 0,
          fabricatedEOF := false } with
    | error sa =>
      have h1' : parseStep stop false fuel .prog
          { tokens := t :: ts, current_index := 0, current_token := t,
            errors := [], answers := answers, prompts := 0,
            fabricatedEOF := false } = .error sa := by
        rw [← stP_eq_error, ← hR, h1]
        rfl
      simp only [h1, h1']
    | ok p =>
      obtain ⟨s1, root⟩ := p
      obtain ⟨root', h1'⟩ : ∃ a, parseStep stop false fuel .prog
          { tokens := t :: ts, current_index := 0, current_token := t,
            errors := [], answers := answers, prompts := 0,
            fabricatedEOF := false } = .ok (s1, a) := by
        rw [← stP_eq_ok, ← hR, h1]
        rfl
      simp only [h1, h1']
      by_cases hEOF : s1.current_token.token_type = TokenType.EOF
      · rw [if_neg (not_not_intro hEOF), if_neg (not_not_intro hEOF)]
        rfl
      · rw [if_pos hEOF, if_pos hEOF]
        cases h2 : report_errorE stop .extraTokens s1 with
        | error s2 => simp only [h2]
        | ok s2 =>
          simp only [h2]
          rfl

theorem report_errorE_inv {stop : Bool} {m : PMsg} {s : PState}
    (hInv : PInv s) :
    (∀ s', report_errorE stop m s = .ok s' → PInv s' ∧ s'.tokens = s.tokens) ∧
    (∀ s', report_errorE stop m s = .error s' → PInv s' ∧ s'.tokens = s.tokens) := by
  unfold report_errorE
  dsimp only
  obtain ⟨hget, hfab⟩ := hInv
  constructor
  · intro s' h
    split at h
    · split at h
      · cases h
      · injection h with h
        rw [← h]
        exact ⟨⟨hget, hfab⟩, rfl⟩
    · injection h with h
      rw [← h]
      exact ⟨⟨hget, hfab⟩, rfl⟩
  · intro s' h
    split at h
    · split at h
      · injection h with h
        rw [← h]
        exact ⟨⟨hget, hfab⟩, rfl⟩
      · cases h
    · cases h

theorem advanceE_inv {s : PState} (hInv : PInv s)
    (hlast : lastIsEOF s.tokens)
    (hne : ¬(s.current_token.token_type = TokenType.EOF)) :
    PInv (advanceE s) ∧ (advanceE s).tokens = s.tokens := by
  obtain ⟨hget, hfab⟩ := hInv
  have hidx : s.current_index < s.tokens.length := by
    by_contra hge
    rw [List.get?_eq_none.mpr (by omega)] at hget
    cases hget
  have hlt : s.current_index + 1 < s.tokens.length := by
    by_contra hge
    have hidx1 : s.current_index = s.tokens.length - 1 := by omega
    unfold lastIsEOF at hlast
    rw [List.getLast?_eq_get? ] at hlast
    rw [hidx1] at hget
    rw [hget] at hlast
    simp only [Option.map_some'] at hlast
    injection hlast with hlast
    exact hne hlast
  unfold advanceE
  dsimp only
  rw [dif_pos hlt]
  refine ⟨⟨?_, hfab⟩, rfl⟩
  exact List.get?_eq_get hlt

theorem effectiveKind_eof {t : Token}
    (h : t.token_type = TokenType.EOF) : effectiveKind t = TokenType.EOF := by
  unfold effectiveKind
  rw [if_neg (by rw [h]; decide)]
  exact h

theorem matchE_inv {stop : Bool} {e : TokenType} {s : PState}
    (hInv : PInv s) (hlast : lastIsEOF s.tokens)
    (hne : ¬(e = TokenType.EOF)) :
    (∀ s', matchE stop e s = .ok s' → PInv s' ∧ s'.tokens = s.tokens) ∧
    (∀ s', matchE stop e s = .error s' → PInv s' ∧ s'.tokens = s.tokens) := by
  unfold matchE
  split
  · next heff =>
    have hcur : ¬(s.current_token.token_type = TokenType.EOF) := by
      intro hc
      exact hne (heff ▸ effectiveKind_eof hc ▸ rfl)
    constructor
    · intro s' h
      injection h with h
      rw [← h]
      exact advanceE_inv ⟨hInv.1, hInv.2⟩ hlast hcur
    · intro s' h
      cases h
  · exact report_errorE_inv hInv

theorem match_leafE_inv {stop : Bool} {e : TokenType} {s : PState}
    (hInv : PInv s) (hlast : lastIsEOF s.tokens)
    (hne : ¬(e = TokenType.EOF)) :
    (∀ s' l, match_leafE stop e s = .ok (s', l) →
      PInv s' ∧ s'.tokens = s.tokens) ∧
    (∀ s', match_leafE stop e s = .error s' →
      PInv s' ∧ s'.tokens = s.tokens) := by
  unfold match_leafE
  split
  · next heff =>
    have hcur : ¬(s.current_token.token_type = TokenType.EOF) := by
      intro hc
      exact hne (heff ▸ effectiveKind_eof hc ▸ rfl)
    constructor
    · intro s' l h
      injection h with h
      have h1 : advanceE s = s' := congrArg Prod.fst h
      rw [← h1]
      exact advanceE_inv ⟨hInv.1, hInv.2⟩ hlast hcur
    · intro s' h
      cases h
  · constructor
    · intro s' l h
      cases hr : report_errorE stop (.expectedFound e s.current_token.lexeme) s with
      | error s2 => rw [hr] at h; cases h
      | ok s2 =>
        rw [hr] at h
        injection h with h
        have h1 : s2 = s' := congrArg Prod.fst h
        rw [← h1]
        exact (report_errorE_inv hInv).1 s2 hr
    · intro s' h
      cases hr : report_errorE stop (.expectedFound e s.current_token.lexeme) s with
      | error s2 =>
        rw [hr] at h
        injection h with h
        rw [← h]
        exact (report_errorE_inv hInv).2 s2 hr
      | ok s2 => rw [hr] at h; cases h

theorem parseValueE_inv {stop tree : Bool} {s : PState}
    (hInv : PInv s) (hlast : lastIsEOF s.tokens) :
    (∀ s' n, parseValueE stop tree s = .ok (s', n) →
      PInv s' ∧ s'.tokens = s.tokens) ∧
    (∀ s', parseValueE stop tree s = .error s' →
      PInv s' ∧ s'.tokens = s.tokens) := by
  unfold parseValueE
  have hm := @match_leafE_inv stop .NUM _ hInv hlast (by decide)
  constructor
  · intro s' n h
    cases h1 : match_leafE stop .NUM s with
    | error s2 => rw [h1] at h; cases h
    | ok p =>
      obtain ⟨s1, l1⟩ := p
      rw [h1] at h
      injection h with h
      have h2 : s1 = s' := congrArg Prod.fst h
      rw [← h2]
      exact hm.1 s1 l1 h1
  · intro s' h
    cases h1 : match_leafE stop .NUM s with
    | error s2 =>
      rw [h1] at h
      injection h with h
      rw [← h]
      exact hm.2 s2 h1
    | ok p => rw [h1] at h; cases h

theorem parseModeE_inv {stop tree : Bool} {s : PState}
    (hInv : PInv s) (hlast : lastIsEOF s.tokens) :
    (∀ s' n, parseModeE stop tree s = .ok (s', n) →
      PInv s' ∧ s'.tokens = s.tokens) ∧
    (∀ s', parseModeE stop tree s = .error s' →
      PInv s' ∧ s'.tokens = s.tokens) := by
  unfold parseModeE
  dsimp only
  split
  · next hk =>
    have hne : ¬(s.current_token.token_type = TokenType.EOF) := by
      rcases hk with h | h | h <;> rw [h] <;> decide
    have hm := @match_leafE_inv stop s.current_token.token_type _ hInv hlast hne
    constructor
    · intro s' n h
      cases h1 : match_leafE stop s.current_token.token_type s with
      | error s2 => rw [h1] at h; cases h
      | ok p =>
        obtain ⟨s1, l1⟩ := p
        rw [h1] at h
        injection h with h
        have h2 : s1 = s' := congrArg Prod.fst h
        rw [← h2]
        exact hm.1 s1 l1 h1
    · intro s' h
      cases h1 : match_leafE stop s.current_token.token_type s with
      | error s2 =>
        rw [h1] at h
        injection h with h
        rw [← h]
        exact hm.2 s2 h1
      | ok p => rw [h1] at h; cases h
  · constructor
    · intro s' n h
      injection h with h
      have h2 : s = s' := congrArg Prod.fst h
      rw [← h2]
      exact ⟨hInv, rfl⟩
    · intro s' h
      cases h

theorem parseTypeMarkE_inv {stop tree : Bool} {s : PState}
    (hInv : PInv s) (hlast : lastIsEOF s.tokens) :
    (∀ s' n, parseTypeMarkE stop tree s = .ok (s', n) →
      PInv s' ∧ s'.tokens = s.tokens) ∧
    (∀ s', parseTypeMarkE stop tree s = .error s' →
      PInv s' ∧ s'.tokens = s.tokens) := by
  unfold parseTypeMarkE
  dsimp only
  split
  · next hk =>
    have hne : ¬(s.current_token.token_type = TokenType.EOF) := by
      rcases hk with h | h | h <;> rw [h] <;> decide
    have hm := @match_leafE_inv stop s.current_token.token_type _ hInv hlast hne
    constructor
    · intro s' n h
      cases h1 : match_leafE stop s.current_token.token_type s with
      | error s2 => rw [h1] at h; cases h
      | ok p =>
        obtain ⟨s1, l1⟩ := p
        rw [h1] at h
        injection h with h
        have h2 : s1 = s' := congrArg Prod.fst h
        rw [← h2]
        exact hm.1 s1 l1 h1
    · intro s' h
      cases h1 : match_leafE stop s.current_token.token_type s with
      | error s2 =>
        rw [h1] at h
        injection h with h
        rw [← h]
        exact hm.2 s2 h1
      | ok p => rw [h1] at h; cases h
  · split
    · have hm := @match_leafE_inv stop .CONSTANT _ hInv hlast
        (by decide)
      constructor
      · intro s' n h
        cases h1 : match_leafE stop .CONSTANT s with
        | error s2 => simp only [h1] at h; cases h
        | ok p =>
          obtain ⟨s1, l1⟩ := p
          simp only [h1] at h
          obtain ⟨hInv1, htok1⟩ := hm.1 s1 l1 h1
          have hlast1 : lastIsEOF s1.tokens := by rw [htok1]; exact hlast
          have hm2 := @match_leafE_inv stop .ASSIGN _ hInv1
            hlast1 (by decide)
          cases h2 : match_leafE stop .ASSIGN s1 with
          | error s2 => simp only [h2] at h; cases h
          | ok p2 =>
            obtain ⟨s2, l2⟩ := p2
            simp only [h2] at h
            obtain ⟨hInv2, htok2⟩ := hm2.1 s2 l2 h2
            have hlast2 : lastIsEOF s2.tokens := by rw [htok2]; exact hlast1
            have hm3 := @parseValueE_inv stop tree _ hInv2 hlast2
            cases h3 : parseValueE stop tree s2 with
            | error s2b => simp only [h3] at h; cases h
            | ok p3 =>
              obtain ⟨s3, c3⟩ := p3
              simp only [h3] at h
              injection h with h
              have h4 : s3 = s' := congrArg Prod.fst h
              obtain ⟨hInv3, htok3⟩ := hm3.1 s3 c3 h3
              rw [← h4]
              exact ⟨hInv3, by rw [htok3, htok2, htok1]⟩
      · intro s' h
        cases h1 : match_leafE stop .CONSTANT s with
        | error s2 =>
          simp only [h1] at h
          injection h with h
          rw [← h]
          exact hm.2 s2 h1
        | ok p =>
          obtain ⟨s1, l1⟩ := p
          simp only [h1] at h
          obtain ⟨hInv1, htok1⟩ := hm.1 s1 l1 h1
          have hlast1 : lastIsEOF s1.tokens := by rw [htok1]; exact hlast
          have hm2 := @match_leafE_inv stop .ASSIGN _ hInv1
            hlast1 (by decide)
          cases h2 : match_leafE stop .ASSIGN s1 with
          | error s2 =>
            simp only [h2] at h
            injection h with h
            rw [← h]
            obtain ⟨hInv2, htok2⟩ := hm2.2 s2 h2
            exact ⟨hInv2, by rw [htok2, htok1]⟩
          | ok p2 =>
            obtain ⟨s2, l2⟩ := p2
            simp only [h2] at h
            obtain ⟨hInv2, htok2⟩ := hm2.1 s2 l2 h2
            have hlast2 : lastIsEOF s2.tokens := by rw [htok2]; exact hlast1
            have hm3 := @parseValueE_inv stop tree _ hInv2 hlast2
            cases h3 : parseValueE stop tree s2 with
            | error s3 =>
              simp only [h3] at h
              injection h with h
              rw [← h]
              obtain ⟨hInv3, htok3⟩ := hm3.2 s3 h3
              exact ⟨hInv3, by rw [htok3, htok2, htok1]⟩
            | ok p3 => simp only [h3] at h; cases h
    · have hr := @report_errorE_inv stop .expectedTypeMark _ hInv
      constructor
      · intro s' n h
        cases h1 : report_errorE stop .expectedTypeMark s with
        | error s2 => rw [h1] at h; cases h
        | ok s2 =>
          rw [h1] at h
          injection h with h
          have h2 : s2 = s' := congrArg Prod.fst h
          rw [← h2]
          exact hr.1 s2 h1
      · intro s' h
        cases h1 : report_errorE stop .expectedTypeMark s with
        | error s2 =>
          rw [h1] at h
          injection h with h
          rw [← h]
          exact hr.2 s2 h1
        | ok s2 => rw [h1] at h; cases h

theorem parseSeqOfStatementsE_inv {tree : Bool} {s : PState}
    (hInv : PInv s) :
    ∀ s' n, parseSeqOfStatementsE tree s = .ok (s', n) →
      PInv s' ∧ s'.tokens = s.tokens := by
  intro s' n h
  unfold parseSeqOfStatementsE at h
  injection h with h
  have h2 : s = s' := congrArg Prod.fst h
  rw [← h2]
  exact ⟨hInv, rfl⟩

theorem matchE_rinv {stop : Bool} {e : TokenType} {s : PState}
    (hInv : PInv s) (hlast : lastIsEOF s.tokens)
    (hne : ¬(e = TokenType.EOF)) :
    EInv s.tokens (matchE stop e s) := by
  have hm := @matchE_inv stop e _ hInv hlast hne
  cases h : matchE stop e s with
  | error s' => exact hm.2 s' h
  | ok s' => exact hm.1 s' h

theorem match_leafE_rinv {stop : Bool} {e : TokenType} {s : PState}
    (hInv : PInv s) (hlast : lastIsEOF s.tokens)
    (hne : ¬(e = TokenType.EOF)) :
    RInv s.tokens (match_leafE stop e s) := by
  have hm := @match_leafE_inv stop e _ hInv hlast hne
  cases h : match_leafE stop e s with
  | error s' => exact hm.2 s' h
  | ok p =>
    obtain ⟨s', l⟩ := p
    exact hm.1 s' l h

theorem parseValueE_rinv {stop tree : Bool} {s : PState}
    (hInv : PInv s) (hlast : lastIsEOF s.tokens) :
    RInv s.tokens (parseValueE stop tree s) := by
  have hm := @parseValueE_inv stop tree _ hInv hlast
  cases h : parseValueE stop tree s with
  | error s' => exact hm.2 s' h
  | ok p =>
    obtain ⟨s', n⟩ := p
    exact hm.1 s' n h

theorem parseModeE_rinv {stop tree : Bool} {s : PState}
    (hInv : PInv s) (hlast : lastIsEOF s.tokens) :
    RInv s.tokens (parseModeE stop tree s) := by
  have hm := @parseModeE_inv stop tree _ hInv hlast
  cases h : parseModeE stop tree s with
  | error s' => exact hm.2 s' h
  | ok p =>
    obtain ⟨s', n⟩ := p
    exact hm.1 s' n h

theorem parseTypeMarkE_rinv {stop tree : Bool} {s : PState}
    (hInv : PInv s) (hlast : lastIsEOF s.tokens) :
    RInv s.tokens (parseTypeMarkE stop tree s) := by
  have hm := @parseTypeMarkE_inv stop tree _ hInv hlast
  cases h : parseTypeMarkE stop tree s with
  | error s' => exact hm.2 s' h
  | ok p =>
    obtain ⟨s', n⟩ := p
    exact hm.1 s' n h

theorem parseSeqOfStatementsE_rinv {tree : Bool} {s : PState}
    (hInv : PInv s) :
    RInv s.tokens (parseSeqOfStatementsE tree s) := by
  unfold parseSeqOfStatementsE
  exact ⟨hInv, rfl⟩

/-- Every parser routine preserves the safety invariant and never
replaces the token list, whichever way it returns. -/
theorem parseStep_inv {stop tree : Bool} :
    ∀ (fuel : Nat) (nt : NT) (s : PState),
      PInv s → lastIsEOF s.tokens →
      RInv s.tokens (parseStep stop tree fuel nt s) := by
  intro fuel
  induction fuel with
  | zero =>
    intro nt s hInv _
    unfold parseStep
    exact ⟨hInv, rfl⟩
  | succ fuel ih =>
    intro nt s hInv hlast
    cases nt with
    | prog =>
      unfold parseStep
      dsimp only
      split
      · -- tree-building branch of parseProg
        have hs1 := @match_leafE_rinv stop TokenType.PROCEDURE _ hInv hlast (by decide)
        cases hh1 : match_leafE stop TokenType.PROCEDURE s with
        | error sE1 =>
          rw [hh1] at hs1
          simp only [hh1]
          exact hs1
        | ok p1 =>
          obtain ⟨s1, x1⟩ := p1
          rw [hh1] at hs1
          obtain ⟨hInv1, htok1⟩ : PInv s1 ∧ (s1).tokens = s.tokens := hs1
          have hlast1 : lastIsEOF (s1).tokens := by rw [htok1]; exact hlast
          simp only [hh1]
          have hs2 := @match_leafE_rinv stop TokenType.ID _ hInv1 hlast1 (by decide)
          rw [htok1] at hs2
          cases hh2 : match_leafE stop TokenType.ID s1 with
          | error sE2 =>
            rw [hh2] at hs2
            simp only [hh2]
            exact hs2
          | ok p2 =>
            obtain ⟨s2, x2⟩ := p2
            rw [hh2] at hs2
            obtain ⟨hInv2, htok2⟩ : PInv s2 ∧ (s2).tokens = s.tokens := hs2
            have hlast2 : lastIsEOF (s2).tokens := by rw [htok2]; exact hlast
            simp only [hh2]
            have hs3 := ih .args s2 hInv2 hlast2
            rw [htok2] at hs3
            cases hh3 : parseStep stop tree fuel .args s2 with
            | error sE3 =>
              rw [hh3] at hs3
              simp only [hh3]
              exact hs3
            | ok p3 =>
              obtain ⟨s3, x3⟩ := p3
              rw [hh3] at hs3
              obtain ⟨hInv3, htok3⟩ : PInv s3 ∧ (s3).tokens = s.tokens := hs3
              have hlast3 : lastIsEOF (s3).tokens := by rw [htok3]; exact hlast
              simp only [hh3]
              have hs4 := @match_leafE_rinv stop TokenType.IS _ hInv3 hlast3 (by decide)
              rw [htok3] at hs4
              cases hh4 : match_leafE stop TokenType.IS s3 with
              | error sE4 =>
                rw [hh4] at hs4
                simp only [hh4]
                exact hs4
              | ok p4 =>
                obtain ⟨s4, x4⟩ := p4
                rw [hh4] at hs4
                obtain ⟨hInv4, htok4⟩ : PInv s4 ∧ (s4).tokens = s.tokens := hs4
                have hlast4 : lastIsEOF (s4).tokens := by rw [htok4]; exact hlast
                simp only [hh4]
                have hs5 := ih .declPart s4 hInv4 hlast4
                rw [htok4] at hs5
                cases hh5 : parseStep stop tree fuel .declPart s4 with
                | error sE5 =>
                  rw [hh5] at hs5
                  simp only [hh5]
                  exact hs5
                | ok p5 =>
                  obtain ⟨s5, x5⟩ := p5
                  rw [hh5] at hs5
                  obtain ⟨hInv5, htok5⟩ : PInv s5 ∧ (s5).tokens = s.tokens := hs5
                  have hlast5 : lastIsEOF (s5).tokens := by rw [htok5]; exact hlast
                  simp only [hh5]
                  have hs6 := ih .procedures s5 hInv5 hlast5
                  rw [htok5] at hs6
                  cases hh6 : parseStep stop tree fuel .procedures s5 with
                  | error sE6 =>
                    rw [hh6] at hs6
                    simp only [hh6]
                    exact hs6
                  | ok p6 =>
                    obtain ⟨s6, x6⟩ := p6
                    rw [hh6] at hs6
                    obtain ⟨hInv6, htok6⟩ : PInv s6 ∧ (s6).tokens = s.tokens := hs6
                    have hlast6 : lastIsEOF (s6).tokens := by rw [htok6]; exact hlast
                    simp only [hh6]
                    have hs7 := @match_leafE_rinv stop TokenType.BEGIN _ hInv6 hlast6 (by decide)
                    rw [htok6] at hs7
                    cases hh7 : match_leafE stop TokenType.BEGIN s6 with
                    | error sE7 =>
                      rw [hh7] at hs7
                      simp only [hh7]
                      exact hs7
                    | ok p7 =>
                      obtain ⟨s7, x7⟩ := p7
                      rw [hh7] at hs7
                      obtain ⟨hInv7, htok7⟩ : PInv s7 ∧ (s7).tokens = s.tokens := hs7
                      have hlast7 : lastIsEOF (s7).tokens := by rw [htok7]; exact hlast
                      simp only [hh7]
                      have hs8 := @parseSeqOfStatementsE_rinv tree _ hInv7
                      rw [htok7] at hs8
                      cases hh8 : parseSeqOfStatementsE tree s7 with
                      | error sE8 =>
                        rw [hh8] at hs8
                        simp only [hh8]
                        exact hs8
                      | ok p8 =>
                        obtain ⟨s8, x8⟩ := p8
                        rw [hh8] at hs8
                        obtain ⟨hInv8, htok8⟩ : PInv s8 ∧ (s8).tokens = s.tokens := hs8
                        have hlast8 : lastIsEOF (s8).tokens := by rw [htok8]; exact hlast
                        simp only [hh8]
                        have hs9 := @match_leafE_rinv stop TokenType.END _ hInv8 hlast8 (by decide)
                        rw [htok8] at hs9
                        cases hh9 : match_leafE stop TokenType.END s8 with
                        | error sE9 =>
                          rw [hh9] at hs9
                          simp only [hh9]
                          exact hs9
                        | ok p9 =>
                          obtain ⟨s9, x9⟩ := p9
                          rw [hh9] at hs9
                          obtain ⟨hInv9, htok9⟩ : PInv s9 ∧ (s9).tokens = s.tokens := hs9
                          have hlast9 : lastIsEOF (s9).tokens := by rw [htok9]; exact hlast
                          simp only [hh9]
                          have hs10 := @match_leafE_rinv stop TokenType.ID _ hInv9 hlast9 (by decide)
                          rw [htok9] at hs10
                          cases hh10 : match_leafE stop TokenType.ID s9 with
                          | error sE10 =>
                            rw [hh10] at hs10
                            simp only [hh10]
                            exact hs10
                          | ok p10 =>
                            obtain ⟨s10, x10⟩ := p10
                            rw [hh10] at hs10
                            obtain ⟨hInv10, htok10⟩ : PInv s10 ∧ (s10).tokens = s.tokens := hs10
                            have hlast10 : lastIsEOF (s10).tokens := by rw [htok10]; exact hlast
                            simp only [hh10]
                            have hs11 := @match_leafE_rinv stop TokenType.SEMICOLON _ hInv10 hlast10 (by decide)
                            rw [htok10] at hs11
                            cases hh11 : match_leafE stop TokenType.SEMICOLON s10 with
                            | error sE11 =>
                              rw [hh11] at hs11
                              simp only [hh11]
                              exact hs11
                            | ok p11 =>
                              obtain ⟨s11, x11⟩ := p11
                              rw [hh11] at hs11
                              obtain ⟨hInv11, htok11⟩ : PInv s11 ∧ (s11).tokens = s.tokens := hs11
                              have hlast11 : lastIsEOF (s11).tokens := by rw [htok11]; exact hlast
                              simp only [hh11]
                              exact ⟨hInv11, htok11⟩
      · -- plain branch of parseProg
        have hs1 := @matchE_rinv stop TokenType.PROCEDURE _ hInv hlast (by decide)
        cases hh1 : matchE stop TokenType.PROCEDURE s with
        | error sE1 =>
          rw [hh1] at hs1
          simp only [hh1]
          exact hs1
        | ok s1 =>
          rw [hh1] at hs1
          obtain ⟨hInv1, htok1⟩ : PInv s1 ∧ (s1).tokens = s.tokens := hs1
          have hlast1 : lastIsEOF (s1).tokens := by rw [htok1]; exact hlast
          simp only [hh1]
          have hs2 := @matchE_rinv stop TokenType.ID _ hInv1 hlast1 (by decide)
          rw [htok1] at hs2
          cases hh2 : matchE stop TokenType.ID s1 with
          | error sE2 =>
            rw [hh2] at hs2
            simp only [hh2]
            exact hs2
          | ok s2 =>
            rw [hh2] at hs2
            obtain ⟨hInv2, htok2⟩ : PInv s2 ∧ (s2).tokens = s.tokens := hs2
            have hlast2 : lastIsEOF (s2).tokens := by rw [htok2]; exact hlast
            simp only [hh2]
            have hs3 := ih .args s2 hInv2 hlast2
            rw [htok2] at hs3
            cases hh3 : parseStep stop tree fuel .args s2 with
            | error sE3 =>
              rw [hh3] at hs3
              simp only [hh3]
              exact hs3
            | ok p3 =>
              obtain ⟨s3, x3⟩ := p3
              rw [hh3] at hs3
              obtain ⟨hInv3, htok3⟩ : PInv s3 ∧ (s3).tokens = s.tokens := hs3
              have hlast3 : lastIsEOF (s3).tokens := by rw [htok3]; exact hlast
              simp only [hh3]
              have hs4 := @matchE_rinv stop TokenType.IS _ hInv3 hlast3 (by decide)
              rw [htok3] at hs4
              cases hh4 : matchE stop TokenType.IS s3 with
              | error sE4 =>
                rw [hh4] at hs4
                simp only [hh4]
                exact hs4
              | ok s4 =>
                rw [hh4] at hs4
                obtain ⟨hInv4, htok4⟩ : PInv s4 ∧ (s4).tokens = s.tokens := hs4
                have hlast4 : lastIsEOF (s4).tokens := by rw [htok4]; exact hlast
                simp only [hh4]
                have hs5 := ih .declPart s4 hInv4 hlast4
                rw [htok4] at hs5
                cases hh5 : parseStep stop tree fuel .declPart s4 with
                | error sE5 =>
                  rw [hh5] at hs5
                  simp only [hh5]
                  exact hs5
                | ok p5 =>
                  obtain ⟨s5, x5⟩ := p5
                  rw [hh5] at hs5
                  obtain ⟨hInv5, htok5⟩ : PInv s5 ∧ (s5).tokens = s.tokens := hs5
                  have hlast5 : lastIsEOF (s5).tokens := by rw [htok5]; exact hlast
                  simp only [hh5]
                  have hs6 := ih .procedures s5 hInv5 hlast5
                  rw [htok5] at hs6
                  cases hh6 : parseStep stop tree fuel .procedures s5 with
                  | error sE6 =>
                    rw [hh6] at hs6
                    simp only [hh6]
                    exact hs6
                  | ok p6 =>
                    obtain ⟨s6, x6⟩ := p6
                    rw [hh6] at hs6
                    obtain ⟨hInv6, htok6⟩ : PInv s6 ∧ (s6).tokens = s.tokens := hs6
                    have hlast6 : lastIsEOF (s6).tokens := by rw [htok6]; exact hlast
                    simp only [hh6]
                    have hs7 := @matchE_rinv stop TokenType.BEGIN _ hInv6 hlast6 (by decide)
                    rw [htok6] at hs7
                    cases hh7 : matchE stop TokenType.BEGIN s6 with
                    | error sE7 =>
                      rw [hh7] at hs7
                      simp only [hh7]
                      exact hs7
                    | ok s7 =>
                      rw [hh7] at hs7
                      obtain ⟨hInv7, htok7⟩ : PInv s7 ∧ (s7).tokens = s.tokens := hs7
                      have hlast7 : lastIsEOF (s7).tokens := by rw [htok7]; exact hlast
                      simp only [hh7]
                      have hs8 := @parseSeqOfStatementsE_rinv tree _ hInv7
                      rw [htok7] at hs8
                      cases hh8 : parseSeqOfStatementsE tree s7 with
                      | error sE8 =>
                        rw [hh8] at hs8
                        simp only [hh8]
                        exact hs8
                      | ok p8 =>
                        obtain ⟨s8, x8⟩ := p8
                        rw [hh8] at hs8
                        obtain ⟨hInv8, htok8⟩ : PInv s8 ∧ (s8).tokens = s.tokens := hs8
                        have hlast8 : lastIsEOF (s8).tokens := by rw [htok8]; exact hlast
                        simp only [hh8]
                        have hs9 := @matchE_rinv stop TokenType.END _ hInv8 hlast8 (by decide)
                        rw [htok8] at hs9
                        cases hh9 : matchE stop TokenType.END s8 with
                        | error sE9 =>
                          rw [hh9] at hs9
                          simp only [hh9]
                          exact hs9
                        | ok s9 =>
                          rw [hh9] at hs9
                          obtain ⟨hInv9, htok9⟩ : PInv s9 ∧ (s9).tokens = s.tokens := hs9
                          have hlast9 : lastIsEOF (s9).tokens := by rw [htok9]; exact hlast
                          simp only [hh9]
                          have hs10 := @matchE_rinv stop TokenType.ID _ hInv9 hlast9 (by decide)
                          rw [htok9] at hs10
                          cases hh10 : matchE stop TokenType.ID s9 with
                          | error sE10 =>
                            rw [hh10] at hs10
                            simp only [hh10]
                            exact hs10
                          | ok s10 =>
                            rw [hh10] at hs10
                            obtain ⟨hInv10, htok10⟩ : PInv s10 ∧ (s10).tokens = s.tokens := hs10
                            have hlast10 : lastIsEOF (s10).tokens := by rw [htok10]; exact hlast
                            simp only [hh10]
                            have hs11 := @matchE_rinv stop TokenType.SEMICOLON _ hInv10 hlast10 (by decide)
                            rw [htok10] at hs11
                            cases hh11 : matchE stop TokenType.SEMICOLON s10 with
                            | error sE11 =>
                              rw [hh11] at hs11
                              simp only [hh11]
                              exact hs11
                            | ok s11 =>
                              rw [hh11] at hs11
                              obtain ⟨hInv11, htok11⟩ : PInv s11 ∧ (s11).tokens = s.tokens := hs11
                              have hlast11 : lastIsEOF (s11).tokens := by rw [htok11]; exact hlast
                              simp only [hh11]
                              exact ⟨hInv11, htok11⟩
    | declPart =>
      unfold parseStep
      dsimp only
      split
      · -- declaration present
        have hs1 := ih .idList s hInv hlast
        cases hh1 : parseStep stop tree fuel .idList s with
        | error sE1 =>
          rw [hh1] at hs1
          simp only [hh1]
          exact hs1
        | ok p1 =>
          obtain ⟨s1, x1⟩ := p1
          rw [hh1] at hs1
          obtain ⟨hInv1, htok1⟩ : PInv s1 ∧ (s1).tokens = s.tokens := hs1
          have hlast1 : lastIsEOF (s1).tokens := by rw [htok1]; exact hlast
          simp only [hh1]
          have hs2 := @match_leafE_rinv stop TokenType.COLON _ hInv1 hlast1 (by decide)
          rw [htok1] at hs2
          cases hh2 : match_leafE stop TokenType.COLON s1 with
          | error sE2 =>
            rw [hh2] at hs2
            simp only [hh2]
            exact hs2
          | ok p2 =>
            obtain ⟨s2, x2⟩ := p2
            rw [hh2] at hs2
            obtain ⟨hInv2, htok2⟩ : PInv s2 ∧ (s2).tokens = s.tokens := hs2
            have hlast2 : lastIsEOF (s2).tokens := by rw [htok2]; exact hlast
            simp only [hh2]
            have hs3 := @parseTypeMarkE_rinv stop tree _ hInv2 hlast2
            rw [htok2] at hs3
            cases hh3 : parseTypeMarkE stop tree s2 with
            | error sE3 =>
              rw [hh3] at hs3
              simp only [hh3]
              exact hs3
            | ok p3 =>
              obtain ⟨s3, x3⟩ := p3
              rw [hh3] at hs3
              obtain ⟨hInv3, htok3⟩ : PInv s3 ∧ (s3).tokens = s.tokens := hs3
              have hlast3 : lastIsEOF (s3).tokens := by rw [htok3]; exact hlast
              simp only [hh3]
              have hs4 := @match_leafE_rinv stop TokenType.SEMICOLON _ hInv3 hlast3 (by decide)
              rw [htok3] at hs4
              cases hh4 : match_leafE stop TokenType.SEMICOLON s3 with
              | error sE4 =>
                rw [hh4] at hs4
                simp only [hh4]
                exact hs4
              | ok p4 =>
                obtain ⟨s4, x4⟩ := p4
                rw [hh4] at hs4
                obtain ⟨hInv4, htok4⟩ : PInv s4 ∧ (s4).tokens = s.tokens := hs4
                have hlast4 : lastIsEOF (s4).tokens := by rw [htok4]; exact hlast
                simp only [hh4]
                have hs5 := ih .declPart s4 hInv4 hlast4
                rw [htok4] at hs5
                cases hh5 : parseStep stop tree fuel .declPart s4 with
                | error sE5 =>
                  rw [hh5] at hs5
                  simp only [hh5]
                  exact hs5
                | ok p5 =>
                  obtain ⟨s5, x5⟩ := p5
                  rw [hh5] at hs5
                  obtain ⟨hInv5, htok5⟩ : PInv s5 ∧ (s5).tokens = s.tokens := hs5
                  have hlast5 : lastIsEOF (s5).tokens := by rw [htok5]; exact hlast
                  simp only [hh5]
                  exact ⟨hInv5, htok5⟩
      · cases tree <;> exact ⟨hInv, rfl⟩
    | idList =>
      unfold parseStep
      dsimp only
      have hs1 := @match_leafE_rinv stop TokenType.ID _ hInv hlast (by decide)
      cases hh1 : match_leafE stop TokenType.ID s with
      | error sE1 =>
        rw [hh1] at hs1
        simp only [hh1]
        exact hs1
      | ok p1 =>
        obtain ⟨s1, x1⟩ := p1
        rw [hh1] at hs1
        obtain ⟨hInv1, htok1⟩ : PInv s1 ∧ (s1).tokens = s.tokens := hs1
        have hlast1 : lastIsEOF (s1).tokens := by rw [htok1]; exact hlast
        simp only [hh1]
        exact htok1 ▸ ih _ s1 hInv1 hlast1
    | idLoop node =>
      unfold parseStep
      dsimp only
      split
      · -- another identifier after a comma
        have hs1 := @match_leafE_rinv stop TokenType.COMMA _ hInv hlast (by decide)
        cases hh1 : match_leafE stop TokenType.COMMA s with
        | error sE1 =>
          rw [hh1] at hs1
          simp only [hh1]
          exact hs1
        | ok p1 =>
          obtain ⟨s1, x1⟩ := p1
          rw [hh1] at hs1
          obtain ⟨hInv1, htok1⟩ : PInv s1 ∧ (s1).tokens = s.tokens := hs1
          have hlast1 : lastIsEOF (s1).tokens := by rw [htok1]; exact hlast
          simp only [hh1]
          have hs2 := @match_leafE_rinv stop TokenType.ID _ hInv1 hlast1 (by decide)
          rw [htok1] at hs2
          cases hh2 : match_leafE stop TokenType.ID s1 with
          | error sE2 =>
            rw [hh2] at hs2
            simp only [hh2]
            exact hs2
          | ok p2 =>
            obtain ⟨s2, x2⟩ := p2
            rw [hh2] at hs2
            obtain ⟨hInv2, htok2⟩ : PInv s2 ∧ (s2).tokens = s.tokens := hs2
            have hlast2 : lastIsEOF (s2).tokens := by rw [htok2]; exact hlast
            simp only [hh2]
            exact htok2 ▸ ih _ s2 hInv2 hlast2
      · exact ⟨hInv, rfl⟩
    | procedures =>
      unfold parseStep
      dsimp only
      split
      · -- nested procedure present
        have hs1 := ih .prog s hInv hlast
        cases hh1 : parseStep stop tree fuel .prog s with
        | error sE1 =>
          rw [hh1] at hs1
          simp only [hh1]
          exact hs1
        | ok p1 =>
          obtain ⟨s1, x1⟩ := p1
          rw [hh1] at hs1
          obtain ⟨hInv1, htok1⟩ : PInv s1 ∧ (s1).tokens = s.tokens := hs1
          have hlast1 : lastIsEOF (s1).tokens := by rw [htok1]; exact hlast
          simp only [hh1]
          have hs2 := ih .procedures s1 hInv1 hlast1
          rw [htok1] at hs2
          cases hh2 : parseStep stop tree fuel .procedures s1 with
          | error sE2 =>
            rw [hh2] at hs2
            simp only [hh2]
            exact hs2
          | ok p2 =>
            obtain ⟨s2, x2⟩ := p2
            rw [hh2] at hs2
            obtain ⟨hInv2, htok2⟩ : PInv s2 ∧ (s2).tokens = s.tokens := hs2
            have hlast2 : lastIsEOF (s2).tokens := by rw [htok2]; exact hlast
            simp only [hh2]
            exact ⟨hInv2, htok2⟩
      · cases tree <;> exact ⟨hInv, rfl⟩
    | args =>
      unfold parseStep
      dsimp only
      split
      · -- parenthesised argument list present
        have hs1 := @match_leafE_rinv stop TokenType.LPAREN _ hInv hlast (by decide)
        cases hh1 : match_leafE stop TokenType.LPAREN s with
        | error sE1 =>
          rw [hh1] at hs1
          simp only [hh1]
          exact hs1
        | ok p1 =>
          obtain ⟨s1, x1⟩ := p1
          rw [hh1] at hs1
          obtain ⟨hInv1, htok1⟩ : PInv s1 ∧ (s1).tokens = s.tokens := hs1
          have hlast1 : lastIsEOF (s1).tokens := by rw [htok1]; exact hlast
          simp only [hh1]
          have hs2 := ih .argList s1 hInv1 hlast1
          rw [htok1] at hs2
          cases hh2 : parseStep stop tree fuel .argList s1 with
          | error sE2 =>
            rw [hh2] at hs2
            simp only [hh2]
            exact hs2
          | ok p2 =>
            obtain ⟨s2, x2⟩ := p2
            rw [hh2] at hs2
            obtain ⟨hInv2, htok2⟩ : PInv s2 ∧ (s2).tokens = s.tokens := hs2
            have hlast2 : lastIsEOF (s2).tokens := by rw [htok2]; exact hlast
            simp only [hh2]
            have hs3 := @match_leafE_rinv stop TokenType.RPAREN _ hInv2 hlast2 (by decide)
            rw [htok2] at hs3
            cases hh3 : match_leafE stop TokenType.RPAREN s2 with
            | error sE3 =>
              rw [hh3] at hs3
              simp only [hh3]
              exact hs3
            | ok p3 =>
              obtain ⟨s3, x3⟩ := p3
              rw [hh3] at hs3
              obtain ⟨hInv3, htok3⟩ : PInv s3 ∧ (s3).tokens = s.tokens := hs3
              have hlast3 : lastIsEOF (s3).tokens := by rw [htok3]; exact hlast
              simp only [hh3]
              exact ⟨hInv3, htok3⟩
      · cases tree <;> exact ⟨hInv, rfl⟩
    | argList =>
      unfold parseStep
      dsimp only
      have hs1 := @parseModeE_rinv stop tree _ hInv hlast
      cases hh1 : parseModeE stop tree s with
      | error sE1 =>
        rw [hh1] at hs1
        simp only [hh1]
        exact hs1
      | ok p1 =>
        obtain ⟨s1, x1⟩ := p1
        rw [hh1] at hs1
        obtain ⟨hInv1, htok1⟩ : PInv s1 ∧ (s1).tokens = s.tokens := hs1
        have hlast1 : lastIsEOF (s1).tokens := by rw [htok1]; exact hlast
        simp only [hh1]
        have hs2 := ih .idList s1 hInv1 hlast1
        rw [htok1] at hs2
        cases hh2 : parseStep stop tree fuel .idList s1 with
        | error sE2 =>
          rw [hh2] at hs2
          simp only [hh2]
          exact hs2
        | ok p2 =>
          obtain ⟨s2, x2⟩ := p2
          rw [hh2] at hs2
          obtain ⟨hInv2, htok2⟩ : PInv s2 ∧ (s2).tokens = s.tokens := hs2
          have hlast2 : lastIsEOF (s2).tokens := by rw [htok2]; exact hlast
          simp only [hh2]
          have hs3 := @match_leafE_rinv stop TokenType.COLON _ hInv2 hlast2 (by decide)
          rw [htok2] at hs3
          cases hh3 : match_leafE stop TokenType.COLON s2 with
          | error sE3 =>
            rw [hh3] at hs3
            simp only [hh3]
            exact hs3
          | ok p3 =>
            obtain ⟨s3, x3⟩ := p3
            rw [hh3] at hs3
            obtain ⟨hInv3, htok3⟩ : PInv s3 ∧ (s3).tokens = s.tokens := hs3
            have hlast3 : lastIsEOF (s3).tokens := by rw [htok3]; exact hlast
            simp only [hh3]
            have hs4 := @parseTypeMarkE_rinv stop tree _ hInv3 hlast3
            rw [htok3] at hs4
            cases hh4 : parseTypeMarkE stop tree s3 with
            | error sE4 =>
              rw [hh4] at hs4
              simp only [hh4]
              exact hs4
            | ok p4 =>
              obtain ⟨s4, x4⟩ := p4
              rw [hh4] at hs4
              obtain ⟨hInv4, htok4⟩ : PInv s4 ∧ (s4).tokens = s.tokens := hs4
              have hlast4 : lastIsEOF (s4).tokens := by rw [htok4]; exact hlast
              simp only [hh4]
              have hs5 := ih .moreArgs s4 hInv4 hlast4
              rw [htok4] at hs5
              cases hh5 : parseStep stop tree fuel .moreArgs s4 with
              | error sE5 =>
                rw [hh5] at hs5
                simp only [hh5]
                exact hs5
              | ok p5 =>
                obtain ⟨s5, x5⟩ := p5
                rw [hh5] at hs5
                obtain ⟨hInv5, htok5⟩ : PInv s5 ∧ (s5).tokens = s.tokens := hs5
                have hlast5 : lastIsEOF (s5).tokens := by rw [htok5]; exact hlast
                simp only [hh5]
                exact ⟨hInv5, htok5⟩
    | moreArgs =>
      unfold parseStep
      dsimp only
      split
      · -- further arguments after a semicolon
        have hs1 := @match_leafE_rinv stop TokenType.SEMICOLON _ hInv hlast (by decide)
        cases hh1 : match_leafE stop TokenType.SEMICOLON s with
        | error sE1 =>
          rw [hh1] at hs1
          simp only [hh1]
          exact hs1
        | ok p1 =>
          obtain ⟨s1, x1⟩ := p1
          rw [hh1] at hs1
          obtain ⟨hInv1, htok1⟩ : PInv s1 ∧ (s1).tokens = s.tokens := hs1
          have hlast1 : lastIsEOF (s1).tokens := by rw [htok1]; exact hlast
          simp only [hh1]
          have hs2 := ih .argList s1 hInv1 hlast1
          rw [htok1] at hs2
          cases hh2 : parseStep stop tree fuel .argList s1 with
          | error sE2 =>
            rw [hh2] at hs2
            simp only [hh2]
            exact hs2
          | ok p2 =>
            obtain ⟨s2, x2⟩ := p2
            rw [hh2] at hs2
            obtain ⟨hInv2, htok2⟩ : PInv s2 ∧ (s2).tokens = s.tokens := hs2
            have hlast2 : lastIsEOF (s2).tokens := by rw [htok2]; exact hlast
            simp only [hh2]
            exact ⟨hInv2, htok2⟩
      · cases tree <;> exact ⟨hInv, rfl⟩

theorem parseE_inv {stop panic tree : Bool} {fuel : Nat} {s : PState}
    (hInv : PInv s) (hlast : lastIsEOF s.tokens) :
    (∀ s' r, parseE stop panic tree fuel s = .ok (s', r) →
      PInv s' ∧ s'.tokens = s.tokens) ∧
    (∀ s', parseE stop panic tree fuel s = .error s' →
      PInv s' ∧ s'.tokens = s.tokens) := by
  unfold parseE parseProgE
  have hP := @parseStep_inv stop tree fuel .prog s hInv hlast
  constructor
  · intro s' r h
    cases hp : parseStep stop tree fuel .prog s with
    | error s2 => rw [hp] at h; cases h
    | ok p =>
      obtain ⟨s1, root⟩ := p
      rw [hp] at hP
      obtain ⟨hInv1, htok1⟩ : PInv s1 ∧ s1.tokens = s.tokens := hP
      simp only [hp] at h
      split at h
      · cases hr : report_errorE stop .extraTokens s1 with
        | error s2 => rw [hr] at h; cases h
        | ok s2 =>
          rw [hr] at h
          injection h with h
          have h2 : s2 = s' := congrArg Prod.fst h
          rw [← h2]
          obtain ⟨hInv2, htok2⟩ :=
            (@report_errorE_inv stop .extraTokens _ hInv1).1 s2 hr
          exact ⟨hInv2, by rw [htok2, htok1]⟩
      · injection h with h
        have h2 : s1 = s' := congrArg Prod.fst h
        rw [← h2]
        exact ⟨hInv1, htok1⟩
  · intro s' h
    cases hp : parseStep stop tree fuel .prog s with
    | error s2 =>
      rw [hp] at hP
      simp only [hp] at h
      injection h with h
      rw [← h]
      exact hP
    | ok p =>
      obtain ⟨s1, root⟩ := p
      rw [hp] at hP
      obtain ⟨hInv1, htok1⟩ : PInv s1 ∧ s1.tokens = s.tokens := hP
      simp only [hp] at h
      split at h
      · cases hr : report_errorE stop .extraTokens s1 with
        | error s2 =>
          rw [hr] at h
          injection h with h
          rw [← h]
          obtain ⟨hInv2, htok2⟩ :=
            (@report_errorE_inv stop .extraTokens _ hInv1).2 s2 hr
          exact ⟨hInv2, by rw [htok2, htok1]⟩
        | ok s2 => rw [hr] at h; cases h
      · cases h

/-- C10: if the parser's input token list ends in an EOF token, then
however `parse` returns, the final state still holds the original token
list, its current token is an element of that list, and the
fabricated-EOF fallback of `advance` (the branch that would invent an
EOF token at line -1, column -1) has never executed — recorded by the
ghost flag `fabricatedEOF`, which that branch alone sets and nothing
clears, being false at the end.  Since every intermediate state of the
run is the final state of a shorter prefix of the same run, the cursor
stays inside the list throughout parsing. -/
theorem C10_no_fabricated_eof
    (stop panic tree : Bool) (fuel : Nat) (ts : List Token)
    (answers : List Bool) (s0 : PState)
    (h0 : initState ts answers = some s0)
    (hlast : lastIsEOF ts) :
    (∀ s' r, parseE stop panic tree fuel s0 = .ok (s', r) →
      s'.current_token ∈ ts ∧ s'.tokens = ts ∧ s'.fabricatedEOF = false) ∧
    (∀ s', parseE stop panic tree fuel s0 = .error s' →
      s'.current_token ∈ ts ∧ s'.tokens = ts ∧ s'.fabricatedEOF = false) := by
  cases ts with
  | nil => unfold initState at h0; cases h0
  | cons t rest =>
    unfold initState at h0
    injection h0 with h0
    have hInv0 : PInv s0 := by
      rw [← h0]
      exact ⟨rfl, rfl⟩
    have htok0 : s0.tokens = t :: rest := by rw [← h0]
    have hlast0 : lastIsEOF s0.tokens := by rw [htok0]; exact hlast
    have hE := @parseE_inv stop panic tree fuel _ hInv0 hlast0
    constructor
    · intro s' r h
      obtain ⟨⟨hget, hfab⟩, htok⟩ := hE.1 s' r h
      rw [htok0] at htok
      refine ⟨?_, htok, hfab⟩
      rw [← htok]
      exact List.get?_mem hget
    · intro s' h
      obtain ⟨⟨hget, hfab⟩, htok⟩ := hE.2 s' h
      rw [htok0] at htok
      refine ⟨?_, htok, hfab⟩
      rw [← htok]
      exact List.get?_mem hget

theorem C10_no_fabricated_eof_witness :
    lastIsEOF toksW ∧
    (∃ p, parseE false false false 1
        ({ tokens := toksW, current_index := 0,
           current_token := tokW .PROCEDURE (("procedure").toList) 1,
           errors := [], answers := [], prompts := 0,
           fabricatedEOF := false } : PState) = Except.ok p ∧
      p.1.current_token ∈ toksW ∧ p.1.tokens = toksW ∧
      p.1.fabricatedEOF = false) := by
  have hmain := C10_no_fabricated_eof false false false 1 toksW []
    ({ tokens := toksW, current_index := 0,
       current_token := tokW .PROCEDURE (("procedure").toList) 1,
       errors := [], answers := [], prompts := 0,
       fabricatedEOF := false } : PState) rfl rfl
  obtain ⟨p, hp⟩ : ∃ p, parseE false false false 1
      ({ tokens := toksW, current_index := 0,
         current_token := tokW .PROCEDURE (("procedure").toList) 1,
         errors := [], answers := [], prompts := 0,
         fabricatedEOF := false } : PState) = Except.ok p := ⟨_, rfl⟩
  exact ⟨rfl, p, hp, hmain.1 p.1 p.2 hp⟩
